import Mathlib

/-!
# Xonitix: a verification development of `xonitix.cpp`

Shallow embedding of the simulation core of the one-line game Xonitix
(`Actor`, `Hero`, the free functions `Update` and `Render`) and proofs about it.

Conventions of the embedding.

* A C++ `int` is a Lean `Int`; `InIntRange` says that it is a value of the
  32-bit type.  Signed overflow is undefined behaviour in C++; the compiled
  program wraps around, and so does the embedding (`wrapInt`) where a
  quantity is not bounded by the screen: every `int` operation of
  `Actor::Update` (the speed is arbitrary) and the addition to the score in
  `Hero::Update`.  The hero's own move and the counter of the paint loop are
  exact sums: with speed 1 and a position in `[0, screen_size]` they stay in
  the range of `int` on every screen smaller than `2^31 - 1`.
* `std::vector<int>` is `List Int`, `push_back` appends at the end.
* A method that mutates `*this` returns the new object; a reference
  parameter (`int &score`) is threaded through the result.
* `rand()` is a parameter: the caller supplies the value it returned.
* `std::string` is `List Char`; a call that throws returns `none`.
* `float` is IEEE 754 binary32 with round-to-nearest-even, modelled with
  exact integer arithmetic on a significand and an exponent.
-/

namespace Xonitix

/-! ## Actor (lines 38-85) -/

/-- The constant `Actor::GOING_LEFT`. -/
def GOING_LEFT : Int := -1

/-- The constant `Actor::GOING_RIGHT`. -/
def GOING_RIGHT : Int := 1

/-- The constant `Actor::STOPPED`. -/
def STOPPED : Int := 0

/-- The data members of `class Actor`. -/
structure Actor where
  pos_ : Int
  direction_ : Int
  speed_ : Int
  screen_size_ : Int
deriving DecidableEq, Repr

/-- `Actor::Init`: `r1`, `r2`, `r3` are the results of the three calls of
`rand()`, in the order of the source; `%` is C++ truncated remainder. -/
def Actor.Init (a : Actor) (screen_size : Int) (r1 r2 r3 : Int) : Actor :=
  { a with
    screen_size_ := screen_size
    pos_ := Int.tmod r1 screen_size
    direction_ := if Int.tmod r2 2 = 0 then GOING_LEFT else GOING_RIGHT
    speed_ := Int.tmod r3 2 + 1 }

/-- `Actor::x`. -/
def Actor.x (a : Actor) : Int := a.pos_

/-- One iteration of the loop of `Actor::ClosestWall_`. -/
def Actor.closestStep (a : Actor) (closest wall : Int) : Int :=
  if a.direction_ = GOING_LEFT then
    if wall < a.pos_ ∧ wall > closest then wall else closest
  else
    if wall > a.pos_ ∧ wall < closest then wall else closest

/-- `Actor::ClosestWall_`: the wall closest to the actor in the direction
it is moving, starting from the screen edge. -/
def Actor.ClosestWall_ (a : Actor) (walls : List Int) : Int :=
  walls.foldl a.closestStep (if a.direction_ = GOING_LEFT then 0 else a.screen_size_)

/-- The value of an `int` operation whose exact result is `x`: the result is reduced to 32-bit
two's complement, which is what the compiled program does when the exact result does not fit
(in C++ itself signed overflow is undefined behaviour). -/
def wrapInt (x : Int) : Int := (x + 2147483648) % 4294967296 - 2147483648

/-- The integer `x` is a value of the 32-bit type `int`. -/
def InIntRange (x : Int) : Prop := -2147483648 ≤ x ∧ x ≤ 2147483647

instance (x : Int) : Decidable (InIntRange x) := by
  unfold InIntRange; infer_instance

/-- `Actor::Update`: move by `direction_ * speed_`, bounce at the closest wall.  Every `int`
operation is followed by `wrapInt`. -/
def Actor.Update (a : Actor) (walls : List Int) : Actor :=
  let closest_wall := a.ClosestWall_ walls
  let a1 : Actor := { a with pos_ := wrapInt (a.pos_ + wrapInt (a.direction_ * a.speed_)) }
  if a1.direction_ = GOING_RIGHT ∧ a1.pos_ ≥ closest_wall then
    { a1 with pos_ := wrapInt (closest_wall - 1), direction_ := wrapInt (a1.direction_ * -1) }
  else if a1.direction_ = GOING_LEFT ∧ a1.pos_ ≤ closest_wall then
    { a1 with pos_ := wrapInt (closest_wall + 1), direction_ := wrapInt (a1.direction_ * -1) }
  else a1

/-- `using EnemyList = std::vector<Actor>`. -/
abbrev EnemyList := List Actor

/-! ## Hero (lines 89-166) -/

/-- The data members of `class Hero : public Actor`. -/
structure Hero extends Actor where
  is_firing_ : Bool
  dead_ : Bool
  shots_ : List Int
deriving DecidableEq, Repr

/-- A default-constructed `Hero`: the member initialisers give
`is_firing_ = false`, `dead_ = false` and an empty `shots_`; the four
`Actor` members are whatever `a` holds. -/
def Hero.fresh (a : Actor) : Hero :=
  { toActor := a, is_firing_ := false, dead_ := false, shots_ := [] }

/-- `Hero::Init`: `r` is the result of the call of `rand()`. -/
def Hero.Init (h : Hero) (screen_size : Int) (r : Int) : Hero :=
  { h with
    screen_size_ := screen_size
    pos_ := Int.tmod r screen_size
    direction_ := 0
    speed_ := 1 }

/-- `Hero::SlideLeft`. -/
def Hero.SlideLeft (h : Hero) : Hero := { h with direction_ := GOING_LEFT }

/-- `Hero::SlideRight`. -/
def Hero.SlideRight (h : Hero) : Hero := { h with direction_ := GOING_RIGHT }

/-- `Hero::walls`. -/
def Hero.walls (h : Hero) : List Int := h.shots_

/-- `Hero::Stop`. -/
def Hero.Stop (h : Hero) : Hero := { h with direction_ := 0 }

/-- `Hero::Fire`. -/
def Hero.Fire (h : Hero) : Hero := { h with is_firing_ := true }

/-- `Hero::Die`. -/
def Hero.Die (h : Hero) : Hero := { h with dead_ := true }

/-- `Hero::is_dead`. -/
def Hero.is_dead (h : Hero) : Bool := h.dead_

/-- The constant `MARGIN` of `Hero::Update`. -/
def MARGIN : Int := 1

/-- Lines 115-122 of `Hero::Update`: the move, clamped at both screen edges. -/
def Hero.move (h : Hero) : Hero :=
  let h1 : Hero := { h with pos_ := h.pos_ + h.direction_ * h.speed_ }
  if h1.pos_ > h1.screen_size_ then
    { h1 with direction_ := STOPPED, pos_ := h1.screen_size_ }
  else if h1.pos_ < 0 then
    { h1 with direction_ := STOPPED, pos_ := 0 }
  else h1

/-- Lines 127-137 of `Hero::Update`: the loop over `shots_`.  `none` is the
early `return false` taken when a shot equals the position; otherwise the
result is the pair `(paint_left_until, paint_right_until)`. -/
def Hero.scanShots (pos : Int) : List Int → Int → Int → Option (Int × Int)
  | [], paint_left_until, paint_right_until => some (paint_left_until, paint_right_until)
  | shot :: rest, paint_left_until, paint_right_until =>
    if shot = pos then none
    else
      let l := if shot < pos ∧ shot > paint_left_until then shot else paint_left_until
      let r := if shot > pos ∧ shot < paint_right_until then shot else paint_right_until
      Hero.scanShots pos rest l r

/-- Lines 139-157 of `Hero::Update`: the loop over the enemies.  `none` is
the early `return true` of a direct hit; otherwise the result is the pair
`(paint_left_until, paint_right_until)`. -/
def Hero.scanEnemies (pos : Int) : List Actor → Int → Int → Option (Int × Int)
  | [], paint_left_until, paint_right_until => some (paint_left_until, paint_right_until)
  | enemy :: rest, paint_left_until, paint_right_until =>
    let enemy_pos := enemy.x
    if enemy_pos > paint_left_until ∧ enemy_pos < pos - MARGIN then
      Hero.scanEnemies pos rest pos paint_right_until
    else if enemy_pos < paint_right_until ∧ enemy_pos > pos + MARGIN then
      Hero.scanEnemies pos rest paint_left_until pos
    else if pos ≥ enemy_pos - MARGIN ∧ pos ≤ enemy_pos + MARGIN then
      none
    else
      Hero.scanEnemies pos rest paint_left_until paint_right_until

/-- Lines 159-162 of `Hero::Update`: the loop
`for (int i = paint_left_until; i <= paint_right_until; i++)`, from the
current value of `i`; it returns the new `shots_` and the new score.
`score += 100` is an `int` addition. -/
def Hero.paint (paint_right_until : Int) (i : Int) (shots : List Int) (score : Int) :
    List Int × Int :=
  if i ≤ paint_right_until then
    Hero.paint paint_right_until (i + 1) (shots ++ [i]) (wrapInt (score + 100))
  else (shots, score)
termination_by (paint_right_until + 1 - i).toNat
decreasing_by omega

/-- `Hero::Update`: the result is the returned `bool`, the hero after the
call and the score after the call. -/
def Hero.Update (h : Hero) (enemies : EnemyList) (score : Int) : Bool × Hero × Int :=
  let h1 := h.move
  if h1.is_firing_ then
    let h2 : Hero := { h1 with is_firing_ := false }
    match Hero.scanShots h2.pos_ h2.shots_ 0 h2.screen_size_ with
    | none => (false, h2, score)
    | some (l, r) =>
      match Hero.scanEnemies h2.pos_ enemies l r with
      | none => (true, h2, score)
      | some (l1, r1) =>
        let p := Hero.paint r1 l1 h2.shots_ score
        (false, { h2 with shots_ := p.1 }, p.2)
  else (false, h1, score)

/-! ## The simulation step (lines 168-177) -/

/-- The free function `Update(enemies, hero, score)`: the result is the
enemy list, the hero and the score after the call. -/
def Update (enemies : EnemyList) (hero : Hero) (score : Int) : EnemyList × Hero × Int :=
  let res := hero.Update enemies score
  let collision := res.1
  let hero1 := res.2.1
  let score1 := res.2.2
  if collision then
    (enemies, hero1.Die, score1)
  else
    (enemies.map (fun enemy => enemy.Update hero1.walls), hero1, score1)


/-! ## Specification-side vocabulary -/

/-- The integers `lo, lo+1, ..., hi` in increasing order (empty when `hi < lo`). -/
def intSpan (lo hi : Int) : List Int :=
  List.map (fun (k : Nat) => lo + (k : Int)) (List.range (hi + 1 - lo).toNat)

/-- Every wall lies in `[0, screen_size]`. -/
def WallsWithin (walls : List Int) (screen_size : Int) : Prop :=
  ∀ w ∈ walls, 0 ≤ w ∧ w ≤ screen_size

/-- The value `L` is the greatest wall less than `p`, or `dflt` if no wall is less than `p`. -/
def IsGreatestWallBelow (walls : List Int) (p dflt L : Int) : Prop :=
  ((∃ w ∈ walls, w < p) → L ∈ walls ∧ L < p ∧ ∀ w ∈ walls, w < p → w ≤ L) ∧
  ((∀ w ∈ walls, ¬ w < p) → L = dflt)

/-- The value `R` is the smallest wall greater than `p`, or `dflt` if no wall is greater than `p`. -/
def IsSmallestWallAbove (walls : List Int) (p dflt R : Int) : Prop :=
  ((∃ w ∈ walls, p < w) → R ∈ walls ∧ p < R ∧ ∀ w ∈ walls, p < w → R ≤ w) ∧
  ((∀ w ∈ walls, ¬ p < w) → R = dflt)

/-- The enemy is within distance 1 (inclusive) of the position `p`. -/
def NearHero (p : Int) (enemy : Actor) : Prop :=
  p - 1 ≤ enemy.x ∧ enemy.x ≤ p + 1

instance (p : Int) (enemy : Actor) : Decidable (NearHero p enemy) := by
  unfold NearHero; infer_instance

/-- The hero states reachable from a default-constructed hero by
`Hero::Init(screen_size)` followed by any sequence of `SlideLeft`,
`SlideRight`, `Stop`, `Fire`, `Die` and `Hero::Update` calls, the latter with
any enemy list and any score; `rand()` returns a non-negative value. -/
inductive Hero.Reachable (screen_size : Int) : Hero → Prop
  | init (a : Actor) (r : Int) (hr : 0 ≤ r) :
      Hero.Reachable screen_size ((Hero.fresh a).Init screen_size r)
  | slideLeft (h : Hero) : Hero.Reachable screen_size h → Hero.Reachable screen_size h.SlideLeft
  | slideRight (h : Hero) : Hero.Reachable screen_size h → Hero.Reachable screen_size h.SlideRight
  | stop (h : Hero) : Hero.Reachable screen_size h → Hero.Reachable screen_size h.Stop
  | fire (h : Hero) : Hero.Reachable screen_size h → Hero.Reachable screen_size h.Fire
  | die (h : Hero) : Hero.Reachable screen_size h → Hero.Reachable screen_size h.Die
  | update (h : Hero) (enemies : EnemyList) (score : Int) :
      Hero.Reachable screen_size h → Hero.Reachable screen_size (h.Update enemies score).2.1

/-- A hero standing on its own wall at cell 5 of a screen of size 20, with a fire pending. -/
def heroOnWall : Hero :=
  { pos_ := 5, direction_ := 0, speed_ := 1, screen_size_ := 20,
    is_firing_ := true, dead_ := false, shots_ := [5] }

/-- An enemy in the cell next to `heroOnWall`. -/
def enemyAt6 : Actor := { pos_ := 6, direction_ := 1, speed_ := 1, screen_size_ := 20 }

/-- A hero in the open at cell 5 of a screen of size 20, with a fire pending. -/
def heroOpen : Hero :=
  { pos_ := 5, direction_ := 0, speed_ := 1, screen_size_ := 20,
    is_firing_ := true, dead_ := false, shots_ := [] }

/-- A hero between the walls 2 and 12 of a screen of size 20, moving right, fire pending. -/
def heroBetweenWalls : Hero :=
  { pos_ := 6, direction_ := 1, speed_ := 1, screen_size_ := 20,
    is_firing_ := true, dead_ := false, shots_ := [12, 2] }

/-- An enemy at cell 10. -/
def enemyAt10 : Actor := { pos_ := 10, direction_ := -1, speed_ := 2, screen_size_ := 20 }

/-- The value `w` is the nearest wall strictly in the direction of travel of the actor:
moving right the smallest wall greater than its position (`screen_size` if none), moving
left the greatest wall less than its position (0 if none). -/
def IsNearestWallAhead (a : Actor) (walls : List Int) (w : Int) : Prop :=
  (a.direction_ = GOING_RIGHT → IsSmallestWallAbove walls a.pos_ a.screen_size_ w) ∧
  (a.direction_ = GOING_LEFT → IsGreatestWallBelow walls a.pos_ 0 w)

/-- Travelling in direction `d`, the cell `target` reaches or passes the wall `w`. -/
def ReachesOrPasses (d target w : Int) : Prop :=
  (d = GOING_RIGHT ∧ w ≤ target) ∨ (d = GOING_LEFT ∧ target ≤ w)

instance (walls : List Int) (screen_size : Int) : Decidable (WallsWithin walls screen_size) := by
  unfold WallsWithin; infer_instance

instance (walls : List Int) (p dflt L : Int) : Decidable (IsGreatestWallBelow walls p dflt L) := by
  unfold IsGreatestWallBelow; infer_instance

instance (walls : List Int) (p dflt R : Int) : Decidable (IsSmallestWallAbove walls p dflt R) := by
  unfold IsSmallestWallAbove; infer_instance

instance (a : Actor) (walls : List Int) (w : Int) : Decidable (IsNearestWallAhead a walls w) := by
  unfold IsNearestWallAhead; infer_instance

instance (d target w : Int) : Decidable (ReachesOrPasses d target w) := by
  unfold ReachesOrPasses; infer_instance

/-- An enemy at cell 9 moving right at speed 2. -/
def actorRight : Actor := { pos_ := 9, direction_ := 1, speed_ := 2, screen_size_ := 20 }

/-- An enemy at cell 9 moving left at speed 2. -/
def actorLeft : Actor := { pos_ := 9, direction_ := -1, speed_ := 2, screen_size_ := 20 }

/-- An enemy at cell 9 of a screen of size 20 moving right at the greatest `int` speed. -/
def actorFast : Actor :=
  { pos_ := 9, direction_ := 1, speed_ := 2147483647, screen_size_ := 20 }

/-- The enemy of the end-to-end scenario: at cell 15, moving left at speed 1. -/
def enemyAt15 : Actor := { pos_ := 15, direction_ := -1, speed_ := 1, screen_size_ := 20 }

/-- The hero of the end-to-end scenario: at cell 5 of a screen of size 20, no walls, one
pending fire, with the given direction and `dead_` flag. -/
def heroScenario (direction : Int) (dead : Bool) : Hero :=
  { pos_ := 5, direction_ := direction, speed_ := 1, screen_size_ := 20,
    is_firing_ := true, dead_ := dead, shots_ := [] }

/-! ## `float` arithmetic of `Hero::ShouldLevelUp` (lines 109-113)

IEEE 754 binary32 with the default rounding, round to nearest, ties to even.  A finite
non-zero number is a sign, a 24-bit significand `m` with `2^23 <= m < 2^24` and an exponent
`e`, and stands for `m * 2^e`.  The exponent is not bounded: the numbers that
`ShouldLevelUp` forms, conversions of a `size_t` and of an `int` and one quotient of these,
lie between `2^-31` and `2^64`, far inside the normal range of binary32. -/

/-- A binary32 value. -/
inductive F32 where
  | nan
  | inf (neg : Bool)
  | zero (neg : Bool)
  | num (neg : Bool) (m : Nat) (e : Int)
deriving DecidableEq, Repr

/-- The loop behind `floorLog2`: halve `n` until it is below 2. -/
def floorLog2Loop : Nat → Nat → Nat
  | 0, _ => 0
  | fuel + 1, n => if n < 2 then 0 else floorLog2Loop fuel (n / 2) + 1

/-- The position of the leading one bit of `n`, that is `floor (log2 n)` for `n >= 1`. -/
def floorLog2 (n : Nat) : Nat := floorLog2Loop n n

/-- The integer nearest to `num / den`, ties to the even one. -/
def rne (num den : Nat) : Nat :=
  let q := num / den
  let r := num % den
  if 2 * r < den then q
  else if den < 2 * r then q + 1
  else if q % 2 = 0 then q else q + 1

/-- The significand and the exponent of the binary32 number nearest to `n >= 1`. -/
def roundNat (n : Nat) : Nat × Int :=
  let k := floorLog2 n
  if k ≤ 23 then (n * 2 ^ (23 - k), (k : Int) - 23)
  else
    let m := rne n (2 ^ (k - 23))
    if m = 2 ^ 24 then (2 ^ 23, (k : Int) - 23 + 1) else (m, (k : Int) - 23)

/-- The conversion `static_cast<float>` of a `size_t`. -/
def F32.ofNat (n : Nat) : F32 :=
  if n = 0 then F32.zero false else F32.num false (roundNat n).1 (roundNat n).2

/-- The conversion `static_cast<float>` of an `int`. -/
def F32.ofInt (i : Int) : F32 :=
  if i = 0 then F32.zero false
  else F32.num (decide (i < 0)) (roundNat i.natAbs).1 (roundNat i.natAbs).2

/-- The binary32 division `x / y`. -/
def F32.div : F32 → F32 → F32
  | F32.nan, _ => F32.nan
  | _, F32.nan => F32.nan
  | F32.inf _, F32.inf _ => F32.nan
  | F32.inf s, F32.zero t => F32.inf (xor s t)
  | F32.inf s, F32.num t _ _ => F32.inf (xor s t)
  | F32.zero _, F32.zero _ => F32.nan
  | F32.zero s, F32.inf t => F32.zero (xor s t)
  | F32.zero s, F32.num t _ _ => F32.zero (xor s t)
  | F32.num s _ _, F32.inf t => F32.zero (xor s t)
  | F32.num s _ _, F32.zero t => F32.inf (xor s t)
  | F32.num s m1 e1, F32.num t m2 e2 =>
    if m2 ≤ m1 then F32.num (xor s t) (rne (m1 * 2 ^ 23) m2) (e1 - e2 - 23)
    else F32.num (xor s t) (rne (m1 * 2 ^ 24) m2) (e1 - e2 - 24)

/-- The comparison `x > 0.50`: the `float` is converted to `double` without rounding and
`0.50` is a `double`, so the exact values are compared; `m * 2^e > 1/2` is
`m * 2^(e+1) > 1`. -/
def F32.gtHalf : F32 → Bool
  | F32.nan => false
  | F32.inf neg => !neg
  | F32.zero _ => false
  | F32.num neg m e => !neg && decide (2 ^ (-(e + 1)).toNat < m * 2 ^ (e + 1).toNat)

/-- `Hero::ShouldLevelUp`. -/
def Hero.ShouldLevelUp (h : Hero) : Bool :=
  F32.gtHalf (F32.div (F32.ofNat h.shots_.length) (F32.ofInt h.screen_size_))

/-- A hero with `n` walls on a screen of size `screen_size`. -/
def heroWithWalls (n : Nat) (screen_size : Int) : Hero :=
  { pos_ := 0, direction_ := 0, speed_ := 1, screen_size_ := screen_size,
    is_firing_ := false, dead_ := false, shots_ := List.replicate n 0 }

/-- A dead hero, stopped at cell 5 of a screen of size 20, no fire pending, walls at 2 and 3. -/
def heroDeadStopped : Hero :=
  { pos_ := 5, direction_ := 0, speed_ := 1, screen_size_ := 20,
    is_firing_ := false, dead_ := true, shots_ := [2, 3] }

/-- A dead hero, stopped outside the screen at cell 25 of a screen of size 20. -/
def heroDeadOutside : Hero :=
  { pos_ := 25, direction_ := 0, speed_ := 1, screen_size_ := 20,
    is_firing_ := false, dead_ := true, shots_ := [] }

/-- A hero at the right edge of a screen of size 20, moving right. -/
def heroAtEdge : Hero :=
  { pos_ := 20, direction_ := 1, speed_ := 1, screen_size_ := 20,
    is_firing_ := false, dead_ := false, shots_ := [] }

/-- The hero at the start of a level on a screen of size 20 when `rand()` returns 0. -/
def heroStart : Hero := (Hero.fresh actorLeft).Init 20 0

/-- The level of one enemy on a screen of size 20 as `main` sets it up when `rand()` returns
12, 1, 0 for the enemy and 0 for the hero: the enemy at 12 moving right at speed 1, the hero
stopped at 0, score 0. -/
def levelStart : EnemyList × Hero × Int := ([actorLeft.Init 20 12 1 0], heroStart, 0)

/-- One round of the frame loop of `main` reduced to its effect on the level: the key presses
handled by `ProcessInput` since the last tick, `input`, followed by one call of `Update`. -/
def frame (input : Hero → Hero) (s : EnemyList × Hero × Int) : EnemyList × Hero × Int :=
  Update s.1 (input s.2.1) s.2.2

/-- Six ticks from `levelStart`: space bar; right arrow and space bar; then four times the
space bar. -/
def levelAfterSixFires : EnemyList × Hero × Int :=
  frame Hero.Fire (frame Hero.Fire (frame Hero.Fire (frame Hero.Fire
    (frame (fun h => h.SlideRight.Fire) (frame Hero.Fire levelStart)))))

/-- A hero at cell 5 of a screen of size 20 with walls at 3 and 9 and a fire pending. -/
def heroCaged : Hero :=
  { pos_ := 5, direction_ := 0, speed_ := 1, screen_size_ := 20,
    is_firing_ := true, dead_ := false, shots_ := [3, 9] }

/-- An enemy at cell 2, left of the wall 3, moving right at speed 2. -/
def enemyAt2 : Actor := { pos_ := 2, direction_ := 1, speed_ := 2, screen_size_ := 20 }

/-! ## Render (lines 179-206)

`std::string` is a `List Char`.  `compare` and `replace` throw `std::out_of_range` when the
position is past the end of the string, and an `int` position that is negative becomes a
huge `size_t`; the constructor `std::string(count, ch)` throws for a negative count.  A
thrown exception is the result `none`. -/

/-- The test `line.compare(pos, 1, s) == 0` for a one-character string `s = c`. -/
def compareAt (line : List Char) (pos : Int) (c : Char) : Option Bool :=
  if pos < 0 ∨ (line.length : Int) < pos then none
  else some (decide ((line)[pos.toNat]? = some c))

/-- The call `line.replace(pos, 1, s)` for a one-character string `s = c`. -/
def replaceAt (line : List Char) (pos : Int) (c : Char) : Option (List Char) :=
  if pos < 0 ∨ (line.length : Int) < pos then none
  else if pos = (line.length : Int) then some (line ++ [c])
  else some (line.set pos.toNat c)

/-- Lines 185-190 of `Render`: the value of `enemy_sprite` for one enemy. -/
def Render.enemySprite (line : List Char) (enemy : Actor) : Option Char :=
  match compareAt line enemy.x ' ' with
  | none => none
  | some blank => some (if blank then '.' else ':')

/-- Lines 183-192 of `Render`: the loop over the enemies. -/
def Render.drawEnemies : EnemyList → List Char → Option (List Char)
  | [], line => some line
  | enemy :: rest, line =>
    match Render.enemySprite line enemy with
    | none => none
    | some enemy_sprite =>
      match replaceAt line enemy.x enemy_sprite with
      | none => none
      | some line1 => Render.drawEnemies rest line1

/-- Lines 194-196 of `Render`: the loop over the walls. -/
def Render.drawWalls : List Int → List Char → Option (List Char)
  | [], line => some line
  | wall :: rest, line =>
    match replaceAt line wall '|' with
    | none => none
    | some line1 => Render.drawWalls rest line1

/-- The status text appended in lines 181-182 of `Render`. -/
def Render.status (enemies : EnemyList) (score : Int) : List Char :=
  ("| Level " ++ toString enemies.length ++ " Score " ++ toString score).toList

/-- Lines 180-182 of `Render`: `screen_size + 1` blanks followed by the status text. -/
def Render.start (enemies : EnemyList) (score : Int) (screen_size : Int) : List Char :=
  List.replicate (screen_size + 1).toNat ' ' ++ Render.status enemies score

/-- The value of `line` at the end of `Render`, before it is written. -/
def Render.line (enemies : EnemyList) (hero : Hero) (score : Int) (screen_size : Int) :
    Option (List Char) :=
  if screen_size + 1 < 0 then none
  else
    let line := Render.start enemies score screen_size
    match Render.drawEnemies enemies line with
    | none => none
    | some line1 =>
      match Render.drawWalls hero.walls line1 with
      | none => none
      | some line2 =>
        match compareAt line2 hero.x '|' with
        | none => none
        | some on_wall => replaceAt line2 hero.x (if on_wall then 'L' else '_')

/-- `Render`: the characters written to `std::cout`, the line followed by four blanks and a
carriage return. -/
def Render (enemies : EnemyList) (hero : Hero) (score : Int) (screen_size : Int) :
    Option (List Char) :=
  match Render.line enemies hero score screen_size with
  | none => none
  | some line => some (line ++ [' ', ' ', ' ', ' ', Char.ofNat 13])

/-- The glyph that the claim on render precedence gives to the cell `i`: the player glyph on
the hero's cell (`L` on a wall, `_` otherwise), else `|` on a wall, else `.` or `:` where an
enemy stands, else a blank. -/
def IsCellGlyph (enemies : EnemyList) (hero : Hero) (i : Int) (c : Char) : Prop :=
  if i = hero.x then c = (if i ∈ hero.walls then 'L' else '_')
  else if i ∈ hero.walls then c = '|'
  else if ∃ e ∈ enemies, e.x = i then c = '.' ∨ c = ':'
  else c = ' '

/-- A hero at cell 3 of a screen of size 8 with walls at 3 and 5. -/
def heroRender : Hero :=
  { pos_ := 3, direction_ := 0, speed_ := 1, screen_size_ := 8,
    is_firing_ := false, dead_ := false, shots_ := [3, 5] }

/-- An enemy at cell 5 of a screen of size 8. -/
def enemyAt5 : Actor := { pos_ := 5, direction_ := 1, speed_ := 1, screen_size_ := 8 }

/-- An enemy at cell 7 of a screen of size 8. -/
def enemyAt7 : Actor := { pos_ := 7, direction_ := -1, speed_ := 2, screen_size_ := 8 }

/-! ## Lemmas on the pieces of `Hero::Update` -/

theorem intSpan_cons (lo hi : Int) (h : lo ≤ hi) : intSpan lo hi = lo :: intSpan (lo + 1) hi := by
  unfold intSpan
  have e : (hi + 1 - lo).toNat = (hi + 1 - (lo + 1)).toNat + 1 := by omega
  rw [e, List.range_succ_eq_map]
  simp only [List.map_cons, List.map_map, Nat.cast_zero, add_zero, List.cons.injEq, true_and]
  apply List.map_congr_left
  intro k _
  simp only [Function.comp_apply, Nat.cast_succ]
  ring

theorem intSpan_empty (lo hi : Int) (h : hi < lo) : intSpan lo hi = [] := by
  unfold intSpan
  have e : (hi + 1 - lo).toNat = 0 := by omega
  rw [e]; rfl

theorem mem_intSpan (lo hi x : Int) : x ∈ intSpan lo hi ↔ lo ≤ x ∧ x ≤ hi := by
  unfold intSpan
  simp only [List.mem_map, List.mem_range]
  constructor
  · rintro ⟨k, hk, rfl⟩
    omega
  · rintro ⟨h1, h2⟩
    exact ⟨(x - lo).toNat, by omega, by omega⟩

theorem length_intSpan (lo hi : Int) : (intSpan lo hi).length = (hi + 1 - lo).toNat := by
  simp [intSpan]

/-- A value inside the range of `int` is left as it is by the wraparound. -/
theorem wrapInt_of_inRange (x : Int) (h : InIntRange x) : wrapInt x = x := by
  unfold InIntRange at h
  unfold wrapInt
  omega

/-- The wraparound always lands inside the range of `int`. -/
theorem wrapInt_inRange (x : Int) : InIntRange (wrapInt x) := by
  unfold InIntRange wrapInt
  omega

/-- Wrapping the second summand first does not change the wrapped sum. -/
theorem wrapInt_add_wrapInt (x y : Int) : wrapInt (x + wrapInt y) = wrapInt (x + y) := by
  unfold wrapInt
  omega

/-- Wrapping the first summand first does not change the wrapped sum. -/
theorem wrapInt_wrapInt_add (x y : Int) : wrapInt (wrapInt x + y) = wrapInt (x + y) := by
  unfold wrapInt
  omega

/-- The paint loop appends the span from `i` to `paint_right_until`. -/
theorem Hero.paint_shots (r : Int) (n : Nat) : ∀ (i : Int) (shots : List Int) (score : Int),
    (r + 1 - i).toNat = n →
    (Hero.paint r i shots score).1 = shots ++ intSpan i r := by
  induction n with
  | zero =>
    intro i shots score hn
    rw [Hero.paint, if_neg (by omega), intSpan_empty i r (by omega)]
    simp
  | succ n ih =>
    intro i shots score hn
    rw [Hero.paint, if_pos (by omega), ih (i + 1) _ _ (by omega), intSpan_cons i r (by omega)]
    simp only [List.append_assoc, List.singleton_append]


@[simp] theorem Hero.move_shots (h : Hero) : h.move.shots_ = h.shots_ := by
  unfold Hero.move; simp only; split_ifs <;> rfl

@[simp] theorem Hero.move_is_firing (h : Hero) : h.move.is_firing_ = h.is_firing_ := by
  unfold Hero.move; simp only; split_ifs <;> rfl

@[simp] theorem Hero.move_dead (h : Hero) : h.move.dead_ = h.dead_ := by
  unfold Hero.move; simp only; split_ifs <;> rfl

@[simp] theorem Hero.move_screen_size (h : Hero) : h.move.screen_size_ = h.screen_size_ := by
  unfold Hero.move; simp only; split_ifs <;> rfl

@[simp] theorem Hero.move_speed (h : Hero) : h.move.speed_ = h.speed_ := by
  unfold Hero.move; simp only; split_ifs <;> rfl

/-- After the move the position is inside the screen, whatever it was before. -/
theorem Hero.move_pos_range (h : Hero) (hs : 0 ≤ h.screen_size_) :
    0 ≤ h.move.pos_ ∧ h.move.pos_ ≤ h.screen_size_ := by
  unfold Hero.move; simp only; split_ifs <;> simp only <;> omega

/-- The loop over the shots takes the early return exactly when the position is a shot. -/
theorem Hero.scanShots_eq_none_iff (pos : Int) (shots : List Int) :
    ∀ l r, Hero.scanShots pos shots l r = none ↔ pos ∈ shots := by
  induction shots with
  | nil => intro l r; simp [Hero.scanShots]
  | cons s rest ih =>
    intro l r
    by_cases hs : s = pos
    · simp [Hero.scanShots, hs]
    · have hs2 : ¬ pos = s := fun e => hs e.symm
      simp only [Hero.scanShots, if_neg hs, ih, List.mem_cons, hs2, false_or]

/-- What the loop over the shots leaves in `paint_left_until` and `paint_right_until`. -/
theorem Hero.scanShots_some (pos : Int) (shots : List Int) :
    ∀ l r l1 r1, Hero.scanShots pos shots l r = some (l1, r1) →
      (l1 = l ∨ (l1 ∈ shots ∧ l1 < pos)) ∧ l ≤ l1 ∧ (∀ w ∈ shots, w < pos → w ≤ l1) ∧
      (r1 = r ∨ (r1 ∈ shots ∧ pos < r1)) ∧ r1 ≤ r ∧ (∀ w ∈ shots, pos < w → r1 ≤ w) := by
  induction shots with
  | nil =>
    intro l r l1 r1 h
    simp only [Hero.scanShots, Option.some.injEq, Prod.mk.injEq] at h
    obtain ⟨rfl, rfl⟩ := h
    simp
  | cons s rest ih =>
    intro l r l1 r1 h
    by_cases hs : s = pos
    · simp [Hero.scanShots, hs] at h
    · simp only [Hero.scanShots, if_neg hs] at h
      obtain ⟨a1, a2, a3, a4, a5, a6⟩ := ih _ _ _ _ h
      refine ⟨?_, ?_, ?_, ?_, ?_, ?_⟩
      · rcases a1 with a1 | ⟨a1, a1'⟩
        · split_ifs at a1 with c
          · right; exact ⟨by rw [a1]; exact List.mem_cons_self _ _, by omega⟩
          · left; exact a1
        · right; exact ⟨List.mem_cons_of_mem _ a1, a1'⟩
      · split_ifs at a2 <;> omega
      · intro w hw hwp
        rcases List.mem_cons.1 hw with rfl | hw
        · split_ifs at a2 <;> omega
        · exact a3 w hw hwp
      · rcases a4 with a4 | ⟨a4, a4'⟩
        · split_ifs at a4 with c
          · right; exact ⟨by rw [a4]; exact List.mem_cons_self _ _, by omega⟩
          · left; exact a4
        · right; exact ⟨List.mem_cons_of_mem _ a4, a4'⟩
      · split_ifs at a5 <;> omega
      · intro w hw hwp
        rcases List.mem_cons.1 hw with rfl | hw
        · split_ifs at a5 <;> omega
        · exact a6 w hw hwp

/-- The loop over the shots returns a pair when the position is not a shot. -/
theorem Hero.scanShots_isSome (pos : Int) (shots : List Int) (l r : Int) (h : pos ∉ shots) :
    ∃ l1 r1, Hero.scanShots pos shots l r = some (l1, r1) := by
  cases e : Hero.scanShots pos shots l r with
  | none => exact absurd ((Hero.scanShots_eq_none_iff pos shots l r).1 e) h
  | some v => exact ⟨v.1, v.2, rfl⟩

/-- A direct hit: an enemy within distance 1 makes the loop over the enemies return early. -/
theorem Hero.scanEnemies_hit (pos : Int) (enemies : List Actor) :
    ∀ l r, (∃ e ∈ enemies, NearHero pos e) → Hero.scanEnemies pos enemies l r = none := by
  induction enemies with
  | nil => intro l r h; simp at h
  | cons e rest ih =>
    intro l r h
    have hcases : NearHero pos e ∨ ∃ e' ∈ rest, NearHero pos e' := by
      obtain ⟨e', he', hn⟩ := h
      rcases List.mem_cons.1 he' with heq | he'
      · left; rw [← heq]; exact hn
      · right; exact ⟨e', he', hn⟩
    simp only [Hero.scanEnemies, MARGIN]
    rcases hcases with hn | hrest
    · unfold NearHero at hn
      rw [if_neg (by omega), if_neg (by omega), if_pos (by omega)]
    · split_ifs
      · exact ih _ _ hrest
      · exact ih _ _ hrest
      · rfl
      · exact ih _ _ hrest

/-- Without a direct hit the loop over the enemies moves a paint limit to the position
exactly when an enemy stands strictly between that limit and the margin. -/
theorem Hero.scanEnemies_clear (pos : Int) (enemies : List Actor) :
    ∀ l r, (∀ e ∈ enemies, ¬ NearHero pos e) →
      Hero.scanEnemies pos enemies l r =
        some (if ∃ e ∈ enemies, l < e.x ∧ e.x < pos - 1 then pos else l,
              if ∃ e ∈ enemies, pos + 1 < e.x ∧ e.x < r then pos else r) := by
  induction enemies with
  | nil => intro l r _; simp [Hero.scanEnemies]
  | cons e rest ih =>
    intro l r h
    have hrest : ∀ e' ∈ rest, ¬ NearHero pos e' := fun e' he' => h e' (List.mem_cons_of_mem _ he')
    have he : ¬ NearHero pos e := h e (List.mem_cons_self _ _)
    unfold NearHero at he
    have c3 : ¬ (pos ≥ e.x - 1 ∧ pos ≤ e.x + 1) := by omega
    simp only [Hero.scanEnemies, MARGIN]
    by_cases c1 : e.x > l ∧ e.x < pos - 1
    · rw [if_pos c1, ih _ _ hrest]
      have n1 : ¬ ∃ e' ∈ rest, pos < e'.x ∧ e'.x < pos - 1 := by
        rintro ⟨e', _, h1, h2⟩; omega
      have p1 : ∃ e' ∈ e :: rest, l < e'.x ∧ e'.x < pos - 1 :=
        ⟨e, List.mem_cons_self _ _, c1.1, c1.2⟩
      have q : (∃ e' ∈ e :: rest, pos + 1 < e'.x ∧ e'.x < r) ↔
          (∃ e' ∈ rest, pos + 1 < e'.x ∧ e'.x < r) := by
        simp only [List.mem_cons, exists_eq_or_imp]
        constructor
        · rintro (h1 | h1)
          · omega
          · exact h1
        · exact fun h1 => Or.inr h1
      simp only [if_neg n1, if_pos p1, q, ite_self]
    · rw [if_neg c1]
      have q1 : (∃ e' ∈ e :: rest, l < e'.x ∧ e'.x < pos - 1) ↔
          (∃ e' ∈ rest, l < e'.x ∧ e'.x < pos - 1) := by
        simp only [List.mem_cons, exists_eq_or_imp]
        constructor
        · rintro (h1 | h1)
          · exact absurd h1 c1
          · exact h1
        · exact fun h1 => Or.inr h1
      by_cases c2 : e.x < r ∧ e.x > pos + 1
      · rw [if_pos c2, ih _ _ hrest]
        have n2 : ¬ ∃ e' ∈ rest, pos + 1 < e'.x ∧ e'.x < pos := by
          rintro ⟨e', _, h1, h2⟩; omega
        have p2 : ∃ e' ∈ e :: rest, pos + 1 < e'.x ∧ e'.x < r :=
          ⟨e, List.mem_cons_self _ _, c2.2, c2.1⟩
        simp only [if_neg n2, if_pos p2, q1]
      · rw [if_neg c2]
        have q2 : (∃ e' ∈ e :: rest, pos + 1 < e'.x ∧ e'.x < r) ↔
            (∃ e' ∈ rest, pos + 1 < e'.x ∧ e'.x < r) := by
          simp only [List.mem_cons, exists_eq_or_imp]
          constructor
          · rintro (h1 | h1)
            · exact absurd ⟨h1.2, h1.1⟩ c2
            · exact h1
          · exact fun h1 => Or.inr h1
        rw [if_neg c3, ih _ _ hrest]
        simp only [q1, q2]


/-- The loop over the enemies leaves each paint limit where it was or at the position. -/
theorem Hero.scanEnemies_some (pos : Int) (enemies : List Actor) :
    ∀ l r l1 r1, Hero.scanEnemies pos enemies l r = some (l1, r1) →
      (l1 = l ∨ l1 = pos) ∧ (r1 = r ∨ r1 = pos) := by
  induction enemies with
  | nil =>
    intro l r l1 r1 h
    simp only [Hero.scanEnemies, Option.some.injEq, Prod.mk.injEq] at h
    exact ⟨Or.inl h.1.symm, Or.inl h.2.symm⟩
  | cons e rest ih =>
    intro l r l1 r1 h
    simp only [Hero.scanEnemies] at h
    split_ifs at h
    · have := ih _ _ _ _ h
      exact ⟨Or.inr (by tauto), this.2⟩
    · have := ih _ _ _ _ h
      exact ⟨this.1, Or.inr (by tauto)⟩
    · exact ih _ _ _ _ h

/-- `Hero::Update` unfolded along its four paths. -/
theorem Hero.Update_cases (h : Hero) (enemies : EnemyList) (score : Int) :
    (h.is_firing_ = false ∧ h.Update enemies score = (false, h.move, score)) ∨
    (h.is_firing_ = true ∧ h.move.pos_ ∈ h.shots_ ∧
      h.Update enemies score = (false, { h.move with is_firing_ := false }, score)) ∨
    (h.is_firing_ = true ∧ h.move.pos_ ∉ h.shots_ ∧
      ∃ l r, Hero.scanShots h.move.pos_ h.shots_ 0 h.screen_size_ = some (l, r) ∧
        Hero.scanEnemies h.move.pos_ enemies l r = none ∧
        h.Update enemies score = (true, { h.move with is_firing_ := false }, score)) ∨
    (h.is_firing_ = true ∧ h.move.pos_ ∉ h.shots_ ∧
      ∃ l r l1 r1, Hero.scanShots h.move.pos_ h.shots_ 0 h.screen_size_ = some (l, r) ∧
        Hero.scanEnemies h.move.pos_ enemies l r = some (l1, r1) ∧
        h.Update enemies score =
          (false, { h.move with is_firing_ := false, shots_ := h.shots_ ++ intSpan l1 r1 },
            (Hero.paint r1 l1 h.shots_ score).2)) := by
  by_cases hf : h.is_firing_ = true
  · right
    by_cases hw : h.move.pos_ ∈ h.shots_
    · left
      refine ⟨hf, hw, ?_⟩
      have e := (Hero.scanShots_eq_none_iff h.move.pos_ h.shots_ 0 h.screen_size_).2 hw
      simp [Hero.Update, hf, e]
    · right
      obtain ⟨l, r, e⟩ := Hero.scanShots_isSome h.move.pos_ h.shots_ 0 h.screen_size_ hw
      cases e2 : Hero.scanEnemies h.move.pos_ enemies l r with
      | none =>
        left
        refine ⟨hf, hw, l, r, e, e2, ?_⟩
        simp [Hero.Update, hf, e, e2]
      | some v =>
        right
        obtain ⟨l1, r1⟩ := v
        refine ⟨hf, hw, l, r, l1, r1, e, e2, ?_⟩
        simp [Hero.Update, hf, e, e2, Hero.paint_shots r1 _ l1 h.shots_ score rfl]
  · left
    have hf2 : h.is_firing_ = false := by simpa using hf
    exact ⟨hf2, by simp [Hero.Update, hf2]⟩

/-- C4. Void fire: when a fire is pending and the position after the move is an existing
wall, `Hero::Update` returns false and leaves the walls and the score as they were,
whatever the enemies are. -/
theorem Hero.Update_void_fire (h : Hero) (enemies : EnemyList) (score : Int)
    (hf : h.is_firing_ = true) (hw : h.move.pos_ ∈ h.walls) :
    (h.Update enemies score).1 = false ∧
    (h.Update enemies score).2.1.walls = h.walls ∧
    (h.Update enemies score).2.2 = score := by
  have e := (Hero.scanShots_eq_none_iff h.move.pos_ h.shots_ 0 h.screen_size_).2 hw
  simp [Hero.Update, hf, e, Hero.walls]


/-- C4 at a concrete input: a hero on its wall at 5 with an enemy at 6. -/
theorem Hero.Update_void_fire_witness :
    heroOnWall.is_firing_ = true ∧ heroOnWall.move.pos_ ∈ heroOnWall.walls ∧
    ((heroOnWall.Update [enemyAt6] 0).1 = false ∧
     (heroOnWall.Update [enemyAt6] 0).2.1.walls = heroOnWall.walls ∧
     (heroOnWall.Update [enemyAt6] 0).2.2 = 0) :=
  ⟨by decide, by decide, Hero.Update_void_fire heroOnWall [enemyAt6] 0 (by decide) (by decide)⟩

/-- The invariant behind C1: the screen size is the one given to `Init`, the position and
every wall lie in `[0, screen_size]`. -/
theorem Hero.Reachable.inv (screen_size : Int) (hs : 1 ≤ screen_size) (h : Hero)
    (hr : Hero.Reachable screen_size h) :
    h.screen_size_ = screen_size ∧ (0 ≤ h.pos_ ∧ h.pos_ ≤ screen_size) ∧
      WallsWithin h.shots_ screen_size := by
  induction hr with
  | init a r hr0 =>
    refine ⟨rfl, ⟨?_, ?_⟩, ?_⟩
    · exact Int.tmod_nonneg _ hr0
    · exact le_of_lt (Int.tmod_lt_of_pos _ (by omega))
    · intro w hw; simp [Hero.Init, Hero.fresh] at hw
  | slideLeft h _ ih => exact ih
  | slideRight h _ ih => exact ih
  | stop h _ ih => exact ih
  | fire h _ ih => exact ih
  | die h _ ih => exact ih
  | update h enemies score _ ih =>
    obtain ⟨i1, -, i3⟩ := ih
    have hs0 : 0 ≤ h.screen_size_ := by omega
    obtain ⟨p0, p1⟩ := Hero.move_pos_range h hs0
    rw [i1] at p1
    rcases Hero.Update_cases h enemies score with
      ⟨_, e⟩ | ⟨_, _, e⟩ | ⟨_, _, _, _, _, _, e⟩ | ⟨_, _, l, r, l1, r1, e1, e2, e⟩
    · rw [e]; exact ⟨by simpa using i1, ⟨p0, p1⟩, by simpa using i3⟩
    · rw [e]; exact ⟨by simpa using i1, ⟨p0, p1⟩, by simpa using i3⟩
    · rw [e]; exact ⟨by simpa using i1, ⟨p0, p1⟩, by simpa using i3⟩
    · rw [e]
      refine ⟨by simpa using i1, ⟨p0, p1⟩, ?_⟩
      obtain ⟨-, a2, -, -, a5, -⟩ := Hero.scanShots_some _ _ _ _ _ _ e1
      obtain ⟨b1, b2⟩ := Hero.scanEnemies_some _ _ _ _ _ _ e2
      rw [i1] at a5
      intro w hw
      simp only [List.mem_append, mem_intSpan] at hw
      rcases hw with hw | ⟨hw1, hw2⟩
      · exact i3 w hw
      · constructor
        · rcases b1 with b1 | b1 <;> omega
        · rcases b2 with b2 | b2 <;> omega

/-- C1. In every hero state reachable from `Hero::Init(screen_size)` with `screen_size >= 1` by
any sequence of `SlideLeft`, `SlideRight`, `Stop`, `Fire`, `Die` and `Hero::Update` calls, with
arbitrary enemy lists, the position is in `[0, screen_size]` and so is every wall. -/
theorem Hero.reachable_in_range (screen_size : Int) (hs : 1 ≤ screen_size) (h : Hero)
    (hr : Hero.Reachable screen_size h) :
    (0 ≤ h.pos_ ∧ h.pos_ ≤ screen_size) ∧ WallsWithin h.walls screen_size :=
  (Hero.Reachable.inv screen_size hs h hr).2

/-- C1 at a concrete input: `Init(20)` with `rand() = 47`, then `SlideRight`, `Fire` and one
`Update` against an enemy at 10. -/
theorem Hero.reachable_in_range_witness :
    (1 : Int) ≤ 20 ∧
    ((0 ≤ ((((Hero.fresh enemyAt10).Init 20 47).SlideRight.Fire).Update [enemyAt10] 0).2.1.pos_ ∧
      ((((Hero.fresh enemyAt10).Init 20 47).SlideRight.Fire).Update [enemyAt10] 0).2.1.pos_ ≤ 20) ∧
     WallsWithin
      ((((Hero.fresh enemyAt10).Init 20 47).SlideRight.Fire).Update [enemyAt10] 0).2.1.walls 20) :=
  ⟨by decide,
    Hero.reachable_in_range 20 (by decide) _
      (Hero.Reachable.update _ [enemyAt10] 0
        (Hero.Reachable.fire _ (Hero.Reachable.slideRight _
          (Hero.Reachable.init enemyAt10 47 (by decide)))))⟩


/-! ## Lemmas on `Actor::ClosestWall_` and `Actor::Update` -/

/-- What the loop of `ClosestWall_` computes for an actor moving left. -/
theorem Actor.foldl_closestStep_left (a : Actor) (hd : a.direction_ = GOING_LEFT)
    (walls : List Int) : ∀ c : Int,
    (walls.foldl a.closestStep c = c ∨
      (walls.foldl a.closestStep c ∈ walls ∧ walls.foldl a.closestStep c < a.pos_)) ∧
    c ≤ walls.foldl a.closestStep c ∧
    (∀ w ∈ walls, w < a.pos_ → w ≤ walls.foldl a.closestStep c) := by
  induction walls with
  | nil => intro c; simp
  | cons s rest ih =>
    intro c
    have hstep : (a.closestStep c s = c ∨ (a.closestStep c s = s ∧ s < a.pos_)) ∧
        c ≤ a.closestStep c s ∧ (s < a.pos_ → s ≤ a.closestStep c s) := by
      simp only [Actor.closestStep, hd, if_true]
      split_ifs <;> omega
    obtain ⟨a1, a2, a3⟩ := ih (a.closestStep c s)
    obtain ⟨b1, b2, b3⟩ := hstep
    simp only [List.foldl_cons]
    generalize a.closestStep c s = c1 at *
    generalize List.foldl a.closestStep c1 rest = c2 at *
    refine ⟨?_, by omega, ?_⟩
    · rcases a1 with a1 | ⟨a1, a1'⟩
      · rcases b1 with b1 | ⟨b1, b1'⟩
        · left; omega
        · right; exact ⟨by rw [a1, b1]; exact List.mem_cons_self _ _, by omega⟩
      · right; exact ⟨List.mem_cons_of_mem _ a1, a1'⟩
    · intro w hw hwp
      rcases List.mem_cons.1 hw with heq | hw
      · rw [heq] at hwp ⊢; have := b3 hwp; omega
      · exact a3 w hw hwp

/-- What the loop of `ClosestWall_` computes for an actor not moving left. -/
theorem Actor.foldl_closestStep_right (a : Actor) (hd : a.direction_ ≠ GOING_LEFT)
    (walls : List Int) : ∀ c : Int,
    (walls.foldl a.closestStep c = c ∨
      (walls.foldl a.closestStep c ∈ walls ∧ a.pos_ < walls.foldl a.closestStep c)) ∧
    walls.foldl a.closestStep c ≤ c ∧
    (∀ w ∈ walls, a.pos_ < w → walls.foldl a.closestStep c ≤ w) := by
  induction walls with
  | nil => intro c; simp
  | cons s rest ih =>
    intro c
    have hstep : (a.closestStep c s = c ∨ (a.closestStep c s = s ∧ a.pos_ < s)) ∧
        a.closestStep c s ≤ c ∧ (a.pos_ < s → a.closestStep c s ≤ s) := by
      simp only [Actor.closestStep, hd, if_false]
      split_ifs <;> omega
    obtain ⟨a1, a2, a3⟩ := ih (a.closestStep c s)
    obtain ⟨b1, b2, b3⟩ := hstep
    simp only [List.foldl_cons]
    generalize a.closestStep c s = c1 at *
    generalize List.foldl a.closestStep c1 rest = c2 at *
    refine ⟨?_, by omega, ?_⟩
    · rcases a1 with a1 | ⟨a1, a1'⟩
      · rcases b1 with b1 | ⟨b1, b1'⟩
        · left; omega
        · right; exact ⟨by rw [a1, b1]; exact List.mem_cons_self _ _, by omega⟩
      · right; exact ⟨List.mem_cons_of_mem _ a1, a1'⟩
    · intro w hw hwp
      rcases List.mem_cons.1 hw with heq | hw
      · rw [heq] at hwp ⊢; have := b3 hwp; omega
      · exact a3 w hw hwp

/-- `ClosestWall_` of an actor moving left. -/
theorem Actor.ClosestWall_left (a : Actor) (hd : a.direction_ = GOING_LEFT) (walls : List Int) :
    (a.ClosestWall_ walls = 0 ∨ (a.ClosestWall_ walls ∈ walls ∧ a.ClosestWall_ walls < a.pos_)) ∧
    0 ≤ a.ClosestWall_ walls ∧ (∀ w ∈ walls, w < a.pos_ → w ≤ a.ClosestWall_ walls) := by
  have := Actor.foldl_closestStep_left a hd walls 0
  simpa [Actor.ClosestWall_, hd] using this

/-- `ClosestWall_` of an actor moving right. -/
theorem Actor.ClosestWall_right (a : Actor) (hd : a.direction_ = GOING_RIGHT)
    (walls : List Int) :
    (a.ClosestWall_ walls = a.screen_size_ ∨
      (a.ClosestWall_ walls ∈ walls ∧ a.pos_ < a.ClosestWall_ walls)) ∧
    a.ClosestWall_ walls ≤ a.screen_size_ ∧
    (∀ w ∈ walls, a.pos_ < w → a.ClosestWall_ walls ≤ w) := by
  have hne : a.direction_ ≠ GOING_LEFT := by rw [hd]; decide
  have := Actor.foldl_closestStep_right a hne walls a.screen_size_
  simpa [Actor.ClosestWall_, hne] using this

/-- `Actor::Update` of an actor moving right. -/
theorem Actor.Update_right (a : Actor) (hd : a.direction_ = GOING_RIGHT) (walls : List Int) :
    a.Update walls =
      if wrapInt (a.pos_ + a.speed_) ≥ a.ClosestWall_ walls then
        { a with pos_ := wrapInt (a.ClosestWall_ walls - 1), direction_ := GOING_LEFT }
      else { a with pos_ := wrapInt (a.pos_ + a.speed_) } := by
  have e1 : wrapInt (a.pos_ + wrapInt (a.direction_ * a.speed_)) = wrapInt (a.pos_ + a.speed_) := by
    rw [wrapInt_add_wrapInt, hd]; simp [GOING_RIGHT]
  rw [hd] at e1
  have e2 : wrapInt (GOING_RIGHT * -1) = GOING_LEFT := by decide
  have e3 : ¬ GOING_RIGHT = GOING_LEFT := by decide
  simp only [Actor.Update, e1, hd, e2, e3, true_and, false_and, if_false]

/-- `Actor::Update` of an actor moving left. -/
theorem Actor.Update_left (a : Actor) (hd : a.direction_ = GOING_LEFT) (walls : List Int) :
    a.Update walls =
      if wrapInt (a.pos_ - a.speed_) ≤ a.ClosestWall_ walls then
        { a with pos_ := wrapInt (a.ClosestWall_ walls + 1), direction_ := GOING_RIGHT }
      else { a with pos_ := wrapInt (a.pos_ - a.speed_) } := by
  have e1 : wrapInt (a.pos_ + wrapInt (a.direction_ * a.speed_)) = wrapInt (a.pos_ - a.speed_) := by
    rw [wrapInt_add_wrapInt, hd]; simp [GOING_LEFT, sub_eq_add_neg]
  rw [hd] at e1
  have e2 : wrapInt (GOING_LEFT * -1) = GOING_RIGHT := by decide
  have e3 : ¬ GOING_LEFT = GOING_RIGHT := by decide
  simp only [Actor.Update, e1, hd, e2, e3, true_and, false_and, if_false]


/-- With walls inside the screen, `ClosestWall_` is the nearest wall ahead of the actor. -/
theorem Actor.ClosestWall_eq (a : Actor) (walls : List Int) (w : Int)
    (hd : a.direction_ = GOING_LEFT ∨ a.direction_ = GOING_RIGHT)
    (hww : WallsWithin walls a.screen_size_)
    (hw : IsNearestWallAhead a walls w) : a.ClosestWall_ walls = w := by
  rcases hd with hd | hd
  · obtain ⟨a1, a2, a3⟩ := Actor.ClosestWall_left a hd walls
    have hL := hw.2 hd
    by_cases hex : ∃ x ∈ walls, x < a.pos_
    · obtain ⟨hm, hp, hmax⟩ := hL.1 hex
      have h1 := a3 w hm hp
      rcases a1 with a1 | ⟨a1, a1'⟩
      · have := (hww w hm).1
        omega
      · have := hmax _ a1 a1'
        omega
    · have hno : ∀ x ∈ walls, ¬ x < a.pos_ := fun x hx hlt => hex ⟨x, hx, hlt⟩
      rw [hL.2 hno]
      rcases a1 with a1 | ⟨a1, a1'⟩
      · exact a1
      · exact absurd a1' (hno _ a1)
  · obtain ⟨a1, a2, a3⟩ := Actor.ClosestWall_right a hd walls
    have hR := hw.1 hd
    by_cases hex : ∃ x ∈ walls, a.pos_ < x
    · obtain ⟨hm, hp, hmin⟩ := hR.1 hex
      have h1 := a3 w hm hp
      rcases a1 with a1 | ⟨a1, a1'⟩
      · have := (hww w hm).2
        omega
      · have := hmin _ a1 a1'
        omega
    · have hno : ∀ x ∈ walls, ¬ a.pos_ < x := fun x hx hlt => hex ⟨x, hx, hlt⟩
      rw [hR.2 hno]
      rcases a1 with a1 | ⟨a1, a1'⟩
      · exact a1
      · exact absurd a1' (hno _ a1)

/-- C5 as stated fails when `p + d*s` leaves the range of `int`: an actor at 9 moving right at
speed 2147483647 with walls at 3 and 10 meets every hypothesis of the claim and `p + d*s`
passes the wall 10, but the `int` sum wraps to -2147483640, nothing is found to be reached,
and the actor ends at -2147483640 still moving right, not at 9 moving left. -/
theorem Actor.Update_bounce_fails_on_overflow :
    (0 ≤ actorFast.pos_ ∧ actorFast.pos_ ≤ actorFast.screen_size_) ∧
    actorFast.direction_ = GOING_RIGHT ∧ 1 ≤ actorFast.speed_ ∧
    WallsWithin [3, 10] actorFast.screen_size_ ∧
    IsNearestWallAhead actorFast [3, 10] 10 ∧
    ReachesOrPasses actorFast.direction_
      (actorFast.pos_ + actorFast.direction_ * actorFast.speed_) 10 ∧
    (actorFast.Update [3, 10]).pos_ = -2147483640 ∧
    (actorFast.Update [3, 10]).pos_ ≠ 10 - actorFast.direction_ ∧
    (actorFast.Update [3, 10]).direction_ = GOING_RIGHT ∧
    (actorFast.Update [3, 10]).direction_ ≠ -actorFast.direction_ := by
  decide

/-- C5, amended (the position and `p + d*s` are `int` values). Mover bounce: for an actor at
`p` in `[0, screen_size]` with direction `d` in `{-1, +1}` and speed `s >= 1`, with `p` and
`p + d*s` in the range of `int`, walls within `[0, screen_size]` and `w` the nearest wall
strictly in the direction of travel: if `p + d*s` reaches or passes `w`, `Actor::Update`
leaves the position at `w - d` and the direction at `-d`; otherwise the position is
`p + d*s` and the direction is unchanged. -/
theorem Actor.Update_bounce (a : Actor) (walls : List Int) (w : Int)
    (hp : 0 ≤ a.pos_ ∧ a.pos_ ≤ a.screen_size_)
    (hd : a.direction_ = GOING_LEFT ∨ a.direction_ = GOING_RIGHT)
    (_hsp : 1 ≤ a.speed_)
    (hpi : InIntRange a.pos_)
    (hfit : InIntRange (a.pos_ + a.direction_ * a.speed_))
    (hww : WallsWithin walls a.screen_size_)
    (hw : IsNearestWallAhead a walls w) :
    (ReachesOrPasses a.direction_ (a.pos_ + a.direction_ * a.speed_) w →
      (a.Update walls).pos_ = w - a.direction_ ∧
      (a.Update walls).direction_ = -a.direction_) ∧
    (¬ ReachesOrPasses a.direction_ (a.pos_ + a.direction_ * a.speed_) w →
      (a.Update walls).pos_ = a.pos_ + a.direction_ * a.speed_ ∧
      (a.Update walls).direction_ = a.direction_) := by
  have hc := Actor.ClosestWall_eq a walls w hd hww hw
  unfold InIntRange at hpi
  rcases hd with hd | hd
  · obtain ⟨a1, a2, a3⟩ := Actor.ClosestWall_left a hd walls
    rw [hc] at a1 a2 a3
    have hfit1 : InIntRange (a.pos_ - a.speed_) := by
      rw [hd] at hfit; simpa [GOING_LEFT, sub_eq_add_neg] using hfit
    have hw1 : wrapInt (w + 1) = w + 1 := by
      apply wrapInt_of_inRange
      unfold InIntRange
      rcases a1 with a1 | ⟨_, a1⟩ <;> omega
    rw [Actor.Update_left a hd walls, hc, wrapInt_of_inRange _ hfit1, hw1]
    simp only [ReachesOrPasses, hd, GOING_LEFT, GOING_RIGHT]
    constructor
    · intro hr
      have hr' : a.pos_ - a.speed_ ≤ w := by
        rcases hr with ⟨h0, _⟩ | ⟨_, h1⟩
        · exact absurd h0 (by decide)
        · omega
      rw [if_pos hr']
      constructor <;> simp
    · intro hr
      have hr' : ¬ a.pos_ - a.speed_ ≤ w := by
        intro hle; exact hr (Or.inr ⟨trivial, by omega⟩)
      rw [if_neg hr']
      constructor
      · simp only; omega
      · rfl
  · obtain ⟨a1, a2, a3⟩ := Actor.ClosestWall_right a hd walls
    rw [hc] at a1 a2 a3
    have hfit1 : InIntRange (a.pos_ + a.speed_) := by
      rw [hd] at hfit; simpa [GOING_RIGHT] using hfit
    rw [Actor.Update_right a hd walls, hc, wrapInt_of_inRange _ hfit1]
    simp only [ReachesOrPasses, hd, GOING_LEFT, GOING_RIGHT]
    unfold InIntRange at hfit1
    constructor
    · intro hr
      have hr' : a.pos_ + a.speed_ ≥ w := by
        rcases hr with ⟨_, h1⟩ | ⟨h0, _⟩
        · omega
        · exact absurd h0 (by decide)
      have hw1 : wrapInt (w - 1) = w - 1 := by
        apply wrapInt_of_inRange
        unfold InIntRange
        rcases a1 with a1 | ⟨_, a1⟩ <;> omega
      rw [if_pos hr', hw1]
      constructor <;> simp
    · intro hr
      have hr' : ¬ a.pos_ + a.speed_ ≥ w := by
        intro hle; exact hr (Or.inl ⟨trivial, by omega⟩)
      rw [if_neg hr']
      constructor
      · simp only; omega
      · rfl

/-- C5, amended, at a concrete input: an actor at 9 moving right at speed 2, walls at 10 and
3: it reaches the wall 10 and ends at 9 moving left. -/
theorem Actor.Update_bounce_witness :
    ReachesOrPasses actorRight.direction_
      (actorRight.pos_ + actorRight.direction_ * actorRight.speed_) 10 ∧
    (actorRight.Update [10, 3]).pos_ = 10 - actorRight.direction_ ∧
    (actorRight.Update [10, 3]).direction_ = -actorRight.direction_ :=
  ⟨by decide,
    (Actor.Update_bounce actorRight [10, 3] 10 (by decide) (by decide) (by decide)
      (by decide) (by decide) (by decide) (by decide)).1
      (by decide)⟩

/-- C6 as stated fails when `p + d*s` leaves the range of `int`: an actor at 9 between the
walls 3 and 10, moving right at speed 2147483647, ends at -2147483640, left of the wall 3. -/
theorem Actor.Update_tunnels_on_overflow :
    actorFast.direction_ = GOING_RIGHT ∧ 1 ≤ actorFast.speed_ ∧
    WallsWithin [3, 10] actorFast.screen_size_ ∧
    (3 : Int) ∈ [3, 10] ∧ (10 : Int) ∈ [3, 10] ∧ 3 < actorFast.pos_ ∧ actorFast.pos_ < 10 ∧
    (actorFast.Update [3, 10]).pos_ = -2147483640 ∧
    ¬ (3 < (actorFast.Update [3, 10]).pos_) := by
  decide

/-- C6, amended (the position and `p + d*s` are `int` values). No tunneling: for an actor with
direction in `{-1, +1}` and speed `s >= 1` at position `p`, with `p` and `p + d*s` in the range
of `int`, and walls within `[0, screen_size]`, if `lo` and `hi` are walls with `lo < p < hi`
then the position after `Actor::Update` is again strictly between `lo` and `hi`. -/
theorem Actor.Update_no_tunneling (a : Actor) (walls : List Int) (lo hi : Int)
    (hd : a.direction_ = GOING_LEFT ∨ a.direction_ = GOING_RIGHT)
    (hsp : 1 ≤ a.speed_)
    (hpi : InIntRange a.pos_)
    (hfit : InIntRange (a.pos_ + a.direction_ * a.speed_))
    (hww : WallsWithin walls a.screen_size_)
    (hlo : lo ∈ walls) (hhi : hi ∈ walls) (h1 : lo < a.pos_) (h2 : a.pos_ < hi) :
    lo < (a.Update walls).pos_ ∧ (a.Update walls).pos_ < hi := by
  unfold InIntRange at hpi
  rcases hd with hd | hd
  · obtain ⟨a1, a2, a3⟩ := Actor.ClosestWall_left a hd walls
    have hlo1 := a3 lo hlo h1
    have hlo0 := (hww lo hlo).1
    have hfit1 : InIntRange (a.pos_ - a.speed_) := by
      rw [hd] at hfit; simpa [GOING_LEFT, sub_eq_add_neg] using hfit
    have hw1 : wrapInt (a.ClosestWall_ walls + 1) = a.ClosestWall_ walls + 1 := by
      apply wrapInt_of_inRange
      unfold InIntRange
      rcases a1 with a1 | ⟨_, a1⟩ <;> omega
    rw [Actor.Update_left a hd walls, wrapInt_of_inRange _ hfit1, hw1]
    split_ifs
    · simp only
      rcases a1 with a1 | ⟨_, a1⟩ <;> omega
    · simp only; omega
  · obtain ⟨a1, a2, a3⟩ := Actor.ClosestWall_right a hd walls
    have hhi1 := a3 hi hhi h2
    have hhi0 := (hww hi hhi).2
    have hfit1 : InIntRange (a.pos_ + a.speed_) := by
      rw [hd] at hfit; simpa [GOING_RIGHT] using hfit
    rw [Actor.Update_right a hd walls, wrapInt_of_inRange _ hfit1]
    unfold InIntRange at hfit1
    split_ifs with hb
    · have hw1 : wrapInt (a.ClosestWall_ walls - 1) = a.ClosestWall_ walls - 1 := by
        apply wrapInt_of_inRange
        unfold InIntRange
        rcases a1 with a1 | ⟨_, a1⟩ <;> omega
      simp only [hw1]
      rcases a1 with a1 | ⟨_, a1⟩ <;> omega
    · simp only; omega

/-- C6, amended, at a concrete input: speed 2 against a wall one cell away. -/
theorem Actor.Update_no_tunneling_witness :
    3 < (actorRight.Update [10, 3]).pos_ ∧ (actorRight.Update [10, 3]).pos_ < 10 :=
  Actor.Update_no_tunneling actorRight [10, 3] 3 10 (by decide) (by decide) (by decide)
    (by decide) (by decide) (by decide) (by decide) (by decide) (by decide)

/-- C7 as stated fails when `p + d*s` leaves the range of `int`: on a screen of size 20 an
actor at 9 moving right at speed 2147483647 ends at -2147483640, outside the screen. -/
theorem Actor.Update_leaves_screen_on_overflow :
    1 ≤ actorFast.screen_size_ ∧
    (0 ≤ actorFast.pos_ ∧ actorFast.pos_ ≤ actorFast.screen_size_) ∧
    actorFast.direction_ = GOING_RIGHT ∧ 1 ≤ actorFast.speed_ ∧
    (actorFast.Update [3, 10]).pos_ = -2147483640 ∧
    ¬ (0 ≤ (actorFast.Update [3, 10]).pos_) ∧
    (actorFast.Update []).pos_ = -2147483640 := by
  decide

/-- C7, amended (the position and `p + d*s` are `int` values). Mover range invariant: for
`screen_size >= 1`, an actor with position in `[0, screen_size]`, direction in `{-1, +1}` and
speed `>= 1`, with `p` and `p + d*s` in the range of `int`, and any wall list, the position
after `Actor::Update` is in `[0, screen_size]` and the direction is still in `{-1, +1}`. -/
theorem Actor.Update_in_range (a : Actor) (walls : List Int)
    (hs : 1 ≤ a.screen_size_)
    (hp : 0 ≤ a.pos_ ∧ a.pos_ ≤ a.screen_size_)
    (hd : a.direction_ = GOING_LEFT ∨ a.direction_ = GOING_RIGHT)
    (hsp : 1 ≤ a.speed_)
    (hpi : InIntRange a.pos_)
    (hfit : InIntRange (a.pos_ + a.direction_ * a.speed_)) :
    (0 ≤ (a.Update walls).pos_ ∧ (a.Update walls).pos_ ≤ a.screen_size_) ∧
    ((a.Update walls).direction_ = GOING_LEFT ∨ (a.Update walls).direction_ = GOING_RIGHT) := by
  unfold InIntRange at hpi
  rcases hd with hd | hd
  · obtain ⟨a1, a2, a3⟩ := Actor.ClosestWall_left a hd walls
    have hfit1 : InIntRange (a.pos_ - a.speed_) := by
      rw [hd] at hfit; simpa [GOING_LEFT, sub_eq_add_neg] using hfit
    have hw1 : wrapInt (a.ClosestWall_ walls + 1) = a.ClosestWall_ walls + 1 := by
      apply wrapInt_of_inRange
      unfold InIntRange
      rcases a1 with a1 | ⟨_, a1⟩ <;> omega
    rw [Actor.Update_left a hd walls, wrapInt_of_inRange _ hfit1, hw1]
    split_ifs
    · refine ⟨?_, Or.inr rfl⟩
      simp only
      rcases a1 with a1 | ⟨_, a1⟩ <;> omega
    · refine ⟨?_, Or.inl hd⟩
      simp only; omega
  · obtain ⟨a1, a2, a3⟩ := Actor.ClosestWall_right a hd walls
    have hfit1 : InIntRange (a.pos_ + a.speed_) := by
      rw [hd] at hfit; simpa [GOING_RIGHT] using hfit
    rw [Actor.Update_right a hd walls, wrapInt_of_inRange _ hfit1]
    unfold InIntRange at hfit1
    split_ifs with hb
    · have hw1 : wrapInt (a.ClosestWall_ walls - 1) = a.ClosestWall_ walls - 1 := by
        apply wrapInt_of_inRange
        unfold InIntRange
        rcases a1 with a1 | ⟨_, a1⟩ <;> omega
      refine ⟨?_, Or.inl rfl⟩
      simp only [hw1]
      rcases a1 with a1 | ⟨_, a1⟩ <;> omega
    · refine ⟨?_, Or.inr hd⟩
      simp only; omega

/-- C7, amended, at a concrete input: an actor at 9 moving left at speed 2 with walls outside
the screen and at 8. -/
theorem Actor.Update_in_range_witness :
    (0 ≤ (actorLeft.Update [-4, 8, 77]).pos_ ∧
      (actorLeft.Update [-4, 8, 77]).pos_ ≤ actorLeft.screen_size_) ∧
    ((actorLeft.Update [-4, 8, 77]).direction_ = GOING_LEFT ∨
      (actorLeft.Update [-4, 8, 77]).direction_ = GOING_RIGHT) :=
  Actor.Update_in_range actorLeft [-4, 8, 77] (by decide) (by decide) (by decide) (by decide)
    (by decide) (by decide)


/-! ## The simulation step and the end-to-end scenario -/

/-- `Hero::Update` never changes the `dead_` flag. -/
theorem Hero.Update_dead (h : Hero) (enemies : EnemyList) (score : Int) :
    (h.Update enemies score).2.1.dead_ = h.dead_ := by
  rcases Hero.Update_cases h enemies score with
    ⟨_, e⟩ | ⟨_, _, e⟩ | ⟨_, _, _, _, _, _, e⟩ | ⟨_, _, _, _, _, _, _, _, e⟩ <;>
  rw [e] <;> simp

/-- C8. The simulation step runs `Hero::Update` first and keeps its score.  If that call
returns true, the hero is the updated hero marked dead and the enemies are unchanged.  If it
returns false, the hero is the updated hero, its `dead_` flag is the one it had before the
step, and each enemy is the result of `Actor::Update` on the walls of the updated hero. -/
theorem Update_step (enemies : EnemyList) (hero : Hero) (score : Int) :
    (Update enemies hero score).2.2 = (hero.Update enemies score).2.2 ∧
    ((hero.Update enemies score).1 = true →
      (Update enemies hero score).2.1 = (hero.Update enemies score).2.1.Die ∧
      (Update enemies hero score).2.1.dead_ = true ∧
      (Update enemies hero score).1 = enemies) ∧
    ((hero.Update enemies score).1 = false →
      (Update enemies hero score).2.1 = (hero.Update enemies score).2.1 ∧
      (Update enemies hero score).2.1.dead_ = hero.dead_ ∧
      (Update enemies hero score).1 =
        enemies.map (fun enemy => enemy.Update (hero.Update enemies score).2.1.walls)) := by
  refine ⟨?_, ?_, ?_⟩
  · unfold Update; simp only; split_ifs <;> rfl
  · intro hc
    have e : Update enemies hero score =
        (enemies, (hero.Update enemies score).2.1.Die, (hero.Update enemies score).2.2) := by
      unfold Update; simp only; rw [if_pos hc]
    rw [e]
    exact ⟨rfl, rfl, rfl⟩
  · intro hc
    have e : Update enemies hero score =
        (enemies.map (fun enemy => enemy.Update (hero.Update enemies score).2.1.walls),
          (hero.Update enemies score).2.1, (hero.Update enemies score).2.2) := by
      unfold Update; simp only; rw [if_neg (by simp [hc])]
    rw [e]
    exact ⟨rfl, Hero.Update_dead hero enemies score, rfl⟩

/-- C8 at two concrete inputs: a direct hit (enemy at 6, hero at 5) leaves the enemy where it
was and marks the hero dead; a clear fire (enemy at 15, hero at 5) paints `0..5` and moves the
enemy against those walls. -/
theorem Update_step_witness :
    ((heroOpen.Update [enemyAt6] 0).1 = true ∧
      (Update [enemyAt6] heroOpen 0).2.1.dead_ = true ∧
      (Update [enemyAt6] heroOpen 0).1 = [enemyAt6]) ∧
    ((heroOpen.Update [enemyAt15] 0).1 = false ∧
      (Update [enemyAt15] heroOpen 0).2.1.dead_ = heroOpen.dead_ ∧
      (Update [enemyAt15] heroOpen 0).1 =
        [enemyAt15].map (fun enemy => enemy.Update (heroOpen.Update [enemyAt15] 0).2.1.walls)) :=
  ⟨⟨by decide,
     ((Update_step [enemyAt6] heroOpen 0).2.1 (by decide)).2⟩,
   ⟨by simp [Hero.Update, Hero.move, Hero.scanShots, Hero.scanEnemies, heroOpen, enemyAt15,
      Actor.x, MARGIN],
     ((Update_step [enemyAt15] heroOpen 0).2.2
      (by simp [Hero.Update, Hero.move, Hero.scanShots, Hero.scanEnemies, heroOpen, enemyAt15,
        Actor.x, MARGIN])).2⟩⟩

/-- C10 as stated fails: in the scenario with the hero stopped at 5, `Hero::Update` paints the
six cells `0..5`, not the cell 5 alone, and adds 600 to the score, not 100. -/
theorem Hero.Update_scenario_paints_six_cells :
    ((heroScenario 0 false).Update [enemyAt15] 0).1 = false ∧
    ((heroScenario 0 false).Update [enemyAt15] 0).2.1.walls = [0, 1, 2, 3, 4, 5] ∧
    ((heroScenario 0 false).Update [enemyAt15] 0).2.1.walls ≠ [5] ∧
    ((heroScenario 0 false).Update [enemyAt15] 0).2.2 = 0 + 600 ∧
    ((heroScenario 0 false).Update [enemyAt15] 0).2.2 ≠ 0 + 100 := by
  have e : (heroScenario 0 false).Update [enemyAt15] 0 =
      (false, { heroScenario 0 false with is_firing_ := false, shots_ := [0, 1, 2, 3, 4, 5] },
        600) := by
    simp [Hero.Update, Hero.move, Hero.scanShots, Hero.scanEnemies, heroScenario, enemyAt15,
      Actor.x, MARGIN, Hero.paint, wrapInt]
  rw [e]
  simp [Hero.walls]

/-- C10, amended. With `screen_size = 20`, no walls, one enemy at 15 moving left at speed 1
and a hero at 5 with one pending fire, `Hero::Update` returns false (no collision) and paints
from the left screen edge to the hero: for a stopped hero the walls afterwards are exactly
`0, 1, 2, 3, 4, 5` and the score has increased by exactly 600; for a hero facing right, which
first moves to 6, they are exactly `0, ..., 6` and the score has increased by exactly 700
(`wrapInt` is the addition of `int`). -/
theorem Hero.Update_scenario (score : Int) (dead : Bool) :
    ((heroScenario 0 dead).Update [enemyAt15] score).1 = false ∧
    ((heroScenario 0 dead).Update [enemyAt15] score).2.1.walls = [0, 1, 2, 3, 4, 5] ∧
    ((heroScenario 0 dead).Update [enemyAt15] score).2.2 = wrapInt (score + 600) ∧
    ((heroScenario GOING_RIGHT dead).Update [enemyAt15] score).1 = false ∧
    ((heroScenario GOING_RIGHT dead).Update [enemyAt15] score).2.1.walls =
      [0, 1, 2, 3, 4, 5, 6] ∧
    ((heroScenario GOING_RIGHT dead).Update [enemyAt15] score).2.2 = wrapInt (score + 700) := by
  have e0 : (heroScenario 0 dead).Update [enemyAt15] score =
      (false, { heroScenario 0 dead with is_firing_ := false, shots_ := [0, 1, 2, 3, 4, 5] },
        wrapInt (score + 600)) := by
    simp [Hero.Update, Hero.move, Hero.scanShots, Hero.scanEnemies, heroScenario, enemyAt15,
      Actor.x, MARGIN, Hero.paint, wrapInt_wrapInt_add, add_assoc]
  have e1 : (heroScenario GOING_RIGHT dead).Update [enemyAt15] score =
      (false, { heroScenario GOING_RIGHT dead with
                  pos_ := 6, is_firing_ := false, shots_ := [0, 1, 2, 3, 4, 5, 6] },
        wrapInt (score + 700)) := by
    simp [Hero.Update, Hero.move, Hero.scanShots, Hero.scanEnemies, heroScenario, enemyAt15,
      Actor.x, MARGIN, Hero.paint, wrapInt_wrapInt_add, add_assoc, GOING_RIGHT]
  rw [e0, e1]
  simp [Hero.walls]


/-! ## Lemmas on the binary32 model -/

theorem floorLog2Loop_spec : ∀ (fuel n : Nat), n ≤ fuel → 1 ≤ n →
    2 ^ floorLog2Loop fuel n ≤ n ∧ n < 2 ^ (floorLog2Loop fuel n + 1) := by
  intro fuel
  induction fuel with
  | zero => intro n h1 h2; omega
  | succ fuel ih =>
    intro n h1 h2
    unfold floorLog2Loop
    by_cases hn : n < 2
    · rw [if_pos hn]
      have : n = 1 := by omega
      subst this
      simp
    · rw [if_neg hn]
      obtain ⟨i1, i2⟩ := ih (n / 2) (by omega) (by omega)
      rw [pow_succ] at i2 ⊢
      rw [pow_succ (n := floorLog2Loop fuel (n / 2) + 1), pow_succ]
      constructor <;> omega

/-- The number `floorLog2 n` is the position of the leading bit of `n`. -/
theorem floorLog2_spec (n : Nat) (hn : 1 ≤ n) :
    2 ^ floorLog2 n ≤ n ∧ n < 2 ^ (floorLog2 n + 1) :=
  floorLog2Loop_spec n n (le_refl n) hn

/-- Rounding never goes below an integer that the quotient reaches. -/
theorem rne_ge (num den lo : Nat) (hden : 0 < den) (h : lo * den ≤ num) : lo ≤ rne num den := by
  have hq : lo ≤ num / den := (Nat.le_div_iff_mul_le hden).2 h
  unfold rne
  simp only
  split_ifs <;> omega

/-- Rounding never goes above an integer that bounds the quotient. -/
theorem rne_le (num den hi : Nat) (hden : 0 < den) (h : num ≤ hi * den) : rne num den ≤ hi := by
  have hdm := Nat.div_add_mod num den
  have hr := Nat.mod_lt num hden
  rcases Nat.lt_or_ge (num / den) hi with hq | hq
  · have h1 : num / den + 1 ≤ hi := hq
    unfold rne
    simp only
    split_ifs <;> omega
  · have h2 : hi * den ≤ num / den * den := Nat.mul_le_mul_right den hq
    have h3 : den * (num / den) = num / den * den := Nat.mul_comm _ _
    have hr0 : num % den = 0 := by omega
    unfold rne
    simp only
    have hqe : num / den * den = hi * den := by omega
    have hqh : num / den = hi := Nat.eq_of_mul_eq_mul_right hden hqe
    rw [if_pos (by omega)]
    omega

/-- Rounding exceeds an even integer `t` exactly when the quotient exceeds `t + 1/2`. -/
theorem rne_gt_even (num den t : Nat) (hden : 0 < den) (ht : t % 2 = 0) :
    t < rne num den ↔ (2 * t + 1) * den < 2 * num := by
  have hdm := Nat.div_add_mod num den
  have hr := Nat.mod_lt num hden
  have h3 : den * (num / den) = num / den * den := Nat.mul_comm _ _
  have hexp : (2 * t + 1) * den = 2 * (t * den) + den := by ring
  rcases Nat.lt_trichotomy (num / den) t with hq | hq | hq
  · have h1 : (num / den + 1) * den ≤ t * den := Nat.mul_le_mul_right den hq
    have h1' : (num / den + 1) * den = num / den * den + den := by ring
    unfold rne
    simp only
    split_ifs <;> omega
  · have h1 : num / den * den = t * den := by rw [hq]
    unfold rne
    simp only
    split_ifs <;> omega
  · have h1 : (t + 1) * den ≤ num / den * den := Nat.mul_le_mul_right den hq
    have h1' : (t + 1) * den = t * den + den := by ring
    unfold rne
    simp only
    split_ifs <;> omega
/-- The test behind `F32.gtHalf`, read over the rationals: `m * 2^t > 1`. -/
theorem gtHalf_core (m : Nat) (t : Int) :
    2 ^ (-t).toNat < m * 2 ^ t.toNat ↔ (1 : ℚ) < (m : ℚ) * (2 : ℚ) ^ t := by
  rcases le_or_lt 0 t with ht | ht
  · obtain ⟨k, rfl⟩ := Int.eq_ofNat_of_zero_le ht
    have e1 : (-(k : Int)).toNat = 0 := by omega
    rw [e1, Int.toNat_ofNat, zpow_natCast, pow_zero]
    constructor
    · intro h; exact_mod_cast h
    · intro h; exact_mod_cast h
  · obtain ⟨k, hk⟩ := Int.eq_ofNat_of_zero_le (show 0 ≤ -t by omega)
    have e1 : t.toNat = 0 := by omega
    have e2 : t = -(k : Int) := by omega
    rw [e1, hk, Int.toNat_ofNat, e2, zpow_neg, zpow_natCast, pow_zero, Nat.mul_one]
    have hpos : (0 : ℚ) < (2 : ℚ) ^ k := by positivity
    rw [← div_eq_mul_inv, lt_div_iff₀ hpos, one_mul]
    constructor
    · intro h; exact_mod_cast h
    · intro h; exact_mod_cast h

/-- The significand and exponent that `roundNat` returns: a 24-bit significand, the exact
value below `2^24`, and a value of at least `2^24` from there on. -/
theorem roundNat_spec (n : Nat) (hn : 1 ≤ n) :
    (2 ^ 23 ≤ (roundNat n).1 ∧ (roundNat n).1 < 2 ^ 24) ∧
    (n < 2 ^ 24 → ((roundNat n).1 : ℚ) * (2 : ℚ) ^ (roundNat n).2 = n) ∧
    (2 ^ 24 ≤ n → (2 : ℚ) ^ 24 ≤ ((roundNat n).1 : ℚ) * (2 : ℚ) ^ (roundNat n).2) := by
  obtain ⟨k1, k2⟩ := floorLog2_spec n hn
  unfold roundNat
  simp only
  generalize floorLog2 n = k at *
  by_cases hk : k ≤ 23
  · rw [if_pos hk]
    simp only
    have e23 : 2 ^ k * 2 ^ (23 - k) = 2 ^ 23 := by rw [← pow_add]; congr 1; omega
    have e24 : 2 ^ (k + 1) * 2 ^ (23 - k) = 2 ^ 24 := by rw [← pow_add]; congr 1; omega
    have hpos : 0 < 2 ^ (23 - k) := by positivity
    have b1 : 2 ^ k * 2 ^ (23 - k) ≤ n * 2 ^ (23 - k) := Nat.mul_le_mul_right _ k1
    have b2 : n * 2 ^ (23 - k) < 2 ^ (k + 1) * 2 ^ (23 - k) := Nat.mul_lt_mul_of_pos_right k2 hpos
    have hn24 : n < 2 ^ 24 := lt_of_lt_of_le k2 (Nat.pow_le_pow_right (by norm_num) (by omega))
    refine ⟨⟨by omega, by omega⟩, ?_, ?_⟩
    · intro _
      push_cast
      have hz : (2 : ℚ) ^ (23 - k) * (2 : ℚ) ^ ((k : Int) - 23) = 1 := by
        rw [← zpow_natCast, ← zpow_add₀ (by norm_num : (2 : ℚ) ≠ 0)]
        have : ((23 - k : Nat) : Int) + ((k : Int) - 23) = 0 := by omega
        rw [this, zpow_zero]
      rw [mul_assoc, hz, mul_one]
    · intro h; omega
  · rw [if_neg hk]
    have hden : 0 < 2 ^ (k - 23) := by positivity
    have e23 : 2 ^ 23 * 2 ^ (k - 23) = 2 ^ k := by rw [← pow_add]; congr 1; omega
    have e24 : 2 ^ 24 * 2 ^ (k - 23) = 2 ^ (k + 1) := by rw [← pow_add]; congr 1; omega
    have g1 : 2 ^ 23 ≤ rne n (2 ^ (k - 23)) := rne_ge _ _ _ hden (by omega)
    have g2 : rne n (2 ^ (k - 23)) ≤ 2 ^ 24 := rne_le _ _ _ hden (by omega)
    have hn24 : 2 ^ 24 ≤ n := le_trans (Nat.pow_le_pow_right (by norm_num) (by omega)) k1
    have hz : (2 : ℚ) ≤ (2 : ℚ) ^ ((k : Int) - 23) := by
      have := zpow_le_zpow_right₀ (by norm_num : (1 : ℚ) ≤ 2) (show (1 : Int) ≤ (k : Int) - 23 by omega)
      simpa using this
    by_cases hm : rne n (2 ^ (k - 23)) = 2 ^ 24
    · rw [if_pos hm]
      simp only
      refine ⟨⟨le_refl _, by norm_num⟩, fun h => by omega, fun _ => ?_⟩
      have hz2 : (2 : ℚ) ≤ (2 : ℚ) ^ ((k : Int) - 23 + 1) := by
        have := zpow_le_zpow_right₀ (by norm_num : (1 : ℚ) ≤ 2)
          (show (1 : Int) ≤ (k : Int) - 23 + 1 by omega)
        simpa using this
      push_cast
      nlinarith
    · rw [if_neg hm]
      simp only
      refine ⟨⟨g1, by omega⟩, fun h => by omega, fun _ => ?_⟩
      have g1' : (2 : ℚ) ^ 23 ≤ (rne n (2 ^ (k - 23)) : ℚ) := by exact_mod_cast g1
      nlinarith
/-- The threshold of the quotient: for two positive binary32 numbers `m1 * 2^e1` and
`m2 * 2^e2` the rounded quotient exceeds `1/2` exactly when the exact quotient exceeds
`1/2 + 2^-25`, half a unit in the last place above `1/2`. -/
theorem F32.gtHalf_div (m1 m2 : Nat) (e1 e2 : Int)
    (h1 : 2 ^ 23 ≤ m1 ∧ m1 < 2 ^ 24) (h2 : 2 ^ 23 ≤ m2 ∧ m2 < 2 ^ 24) :
    F32.gtHalf (F32.div (F32.num false m1 e1) (F32.num false m2 e2)) = true ↔
      ((2 : ℚ) ^ 24 + 1) * ((m2 : ℚ) * (2 : ℚ) ^ e2) <
        (2 : ℚ) ^ 25 * ((m1 : ℚ) * (2 : ℚ) ^ e1) := by
  have hx2 : (0 : ℚ) < (2 : ℚ) ^ e2 := by positivity
  have hsplit : (2 : ℚ) ^ e1 = (2 : ℚ) ^ (e1 - e2) * (2 : ℚ) ^ e2 := by
    rw [← zpow_add₀ (by norm_num : (2 : ℚ) ≠ 0)]; congr 1; omega
  have hm2 : 0 < m2 := by omega
  have q1a : ((2 : ℚ) ^ 23 ≤ (m1 : ℚ)) := by exact_mod_cast h1.1
  have q1b : ((m1 : ℚ) < (2 : ℚ) ^ 24) := by exact_mod_cast h1.2
  have q2a : ((2 : ℚ) ^ 23 ≤ (m2 : ℚ)) := by exact_mod_cast h2.1
  have q2b : ((m2 : ℚ) < (2 : ℚ) ^ 24) := by exact_mod_cast h2.2
  have key : ∀ x : ℚ, 0 < x →
      (((2 : ℚ) ^ 24 + 1) * ((m2 : ℚ) * (2 : ℚ) ^ e2) <
        (2 : ℚ) ^ 25 * ((m1 : ℚ) * (x * (2 : ℚ) ^ e2)) ↔
        ((2 : ℚ) ^ 24 + 1) * (m2 : ℚ) < (2 : ℚ) ^ 25 * ((m1 : ℚ) * x)) := by
    intro x _
    constructor
    · intro h
      have : ((2 : ℚ) ^ 24 + 1) * (m2 : ℚ) * (2 : ℚ) ^ e2 <
          (2 : ℚ) ^ 25 * ((m1 : ℚ) * x) * (2 : ℚ) ^ e2 := by linarith
      exact lt_of_mul_lt_mul_right this (le_of_lt hx2)
    · intro h
      have := mul_lt_mul_of_pos_right h hx2
      linarith
  have hdiv : F32.div (F32.num false m1 e1) (F32.num false m2 e2) =
      if m2 ≤ m1 then F32.num false (rne (m1 * 2 ^ 23) m2) (e1 - e2 - 23)
      else F32.num false (rne (m1 * 2 ^ 24) m2) (e1 - e2 - 24) := by
    simp [F32.div]
  rw [hsplit, key _ (by positivity), hdiv]
  generalize e1 - e2 = d
  by_cases hle : m2 ≤ m1
  · -- the quotient of the significands is in [1, 2)
    rw [if_pos hle]
    have g1 : 2 ^ 23 ≤ rne (m1 * 2 ^ 23) m2 :=
      rne_ge _ _ _ hm2 (by rw [Nat.mul_comm]; exact Nat.mul_le_mul_right _ hle)
    have g2 : rne (m1 * 2 ^ 23) m2 ≤ 2 ^ 24 := rne_le _ _ _ hm2 (by omega)
    have g3 := rne_gt_even (m1 * 2 ^ 23) m2 (2 ^ 23) hm2 (by norm_num)
    have hle' : (m2 : ℚ) ≤ (m1 : ℚ) := by exact_mod_cast hle
    generalize rne (m1 * 2 ^ 23) m2 = m at *
    have g1' : (2 : ℚ) ^ 23 ≤ (m : ℚ) := by exact_mod_cast g1
    have g2' : (m : ℚ) ≤ (2 : ℚ) ^ 24 := by exact_mod_cast g2
    have g3' : (2 : ℚ) ^ 23 < (m : ℚ) ↔ ((2 : ℚ) ^ 24 + 1) * (m2 : ℚ) < (2 : ℚ) ^ 24 * m1 := by
      constructor
      · intro h
        have h' : 2 ^ 23 < m := by exact_mod_cast h
        have := g3.1 h'
        have t : ((2 * 2 ^ 23 + 1) * m2 : ℚ) < ((2 * (m1 * 2 ^ 23) : Nat) : ℚ) := by
          exact_mod_cast this
        push_cast at t
        linarith
      · intro h
        have t : (2 * 2 ^ 23 + 1) * m2 < 2 * (m1 * 2 ^ 23) := by
          have : (((2 * 2 ^ 23 + 1) * m2 : Nat) : ℚ) < ((2 * (m1 * 2 ^ 23) : Nat) : ℚ) := by
            push_cast; linarith
          exact_mod_cast this
        exact_mod_cast g3.2 t
    simp only [F32.gtHalf, Bool.not_false, Bool.true_and, decide_eq_true_eq]
    rw [gtHalf_core]
    have hs : (2 : ℚ) ^ d = (2 : ℚ) ^ (d - 23 + 1) * (2 : ℚ) ^ 22 := by
      rw [show ((2 : ℚ) ^ 22) = (2 : ℚ) ^ (22 : Int) by norm_num,
        ← zpow_add₀ (by norm_num : (2 : ℚ) ≠ 0)]
      congr 1; ring
    have hxpos : (0 : ℚ) < (2 : ℚ) ^ d := by positivity
    have hcases : (2 : ℚ) ^ d ≤ 1 / 4 ∨ (2 : ℚ) ^ d = 1 / 2 ∨ 1 ≤ (2 : ℚ) ^ d := by
      rcases lt_trichotomy d (-1) with hd | hd | hd
      · left
        have := zpow_le_zpow_right₀ (by norm_num : (1 : ℚ) ≤ 2) (show d ≤ -2 by omega)
        norm_num at this ⊢
        exact this
      · right; left; rw [hd]; norm_num
      · right; right; exact one_le_zpow₀ (by norm_num) (by omega)
    generalize (2 : ℚ) ^ (d - 23 + 1) = y at *
    generalize (2 : ℚ) ^ d = x at *
    have hL : (1 < (m : ℚ) * y) ↔ (2 : ℚ) ^ 22 < (m : ℚ) * x := by
      have e : (m : ℚ) * x = (m : ℚ) * y * (2 : ℚ) ^ 22 := by rw [hs]; ring
      rw [e]
      constructor <;> intro h <;> nlinarith
    rw [hL]
    have hmx : (m : ℚ) * x ≤ (2 : ℚ) ^ 24 * x := mul_le_mul_of_nonneg_right g2' (le_of_lt hxpos)
    have hm1x : (m1 : ℚ) * x ≤ (2 : ℚ) ^ 24 * x :=
      mul_le_mul_of_nonneg_right (le_of_lt q1b) (le_of_lt hxpos)
    rcases hcases with hx | hx | hx
    · constructor
      · intro h; exfalso; linarith
      · intro h; exfalso; linarith
    · rw [hx]
      constructor
      · intro h
        have := g3'.1 (by linarith)
        linarith
      · intro h
        have := g3'.2 (by linarith)
        linarith
    · have hm1 : (m1 : ℚ) ≤ (m1 : ℚ) * x := le_mul_of_one_le_right (by linarith) hx
      have hm : (m : ℚ) ≤ (m : ℚ) * x := le_mul_of_one_le_right (by linarith) hx
      constructor
      · intro _; linarith
      · intro _; linarith
  · -- the quotient of the significands is in (1/2, 1)
    rw [if_neg hle]
    have hlt : m1 < m2 := by omega
    have g1 : 2 ^ 23 ≤ rne (m1 * 2 ^ 24) m2 := rne_ge _ _ _ hm2 (by omega)
    have g2 : rne (m1 * 2 ^ 24) m2 ≤ 2 ^ 24 :=
      rne_le _ _ _ hm2 (by rw [Nat.mul_comm]; exact Nat.mul_le_mul_left _ (le_of_lt hlt))
    have g3 := rne_gt_even (m1 * 2 ^ 24) m2 (2 ^ 23) hm2 (by norm_num)
    have hlt' : (m1 : ℚ) < (m2 : ℚ) := by exact_mod_cast hlt
    generalize rne (m1 * 2 ^ 24) m2 = m at *
    have g1' : (2 : ℚ) ^ 23 ≤ (m : ℚ) := by exact_mod_cast g1
    have g2' : (m : ℚ) ≤ (2 : ℚ) ^ 24 := by exact_mod_cast g2
    have g3' : (2 : ℚ) ^ 23 < (m : ℚ) ↔ ((2 : ℚ) ^ 24 + 1) * (m2 : ℚ) < (2 : ℚ) ^ 25 * m1 := by
      constructor
      · intro h
        have h' : 2 ^ 23 < m := by exact_mod_cast h
        have := g3.1 h'
        have t : ((2 * 2 ^ 23 + 1) * m2 : ℚ) < ((2 * (m1 * 2 ^ 24) : Nat) : ℚ) := by
          exact_mod_cast this
        push_cast at t
        linarith
      · intro h
        have t : (2 * 2 ^ 23 + 1) * m2 < 2 * (m1 * 2 ^ 24) := by
          have : (((2 * 2 ^ 23 + 1) * m2 : Nat) : ℚ) < ((2 * (m1 * 2 ^ 24) : Nat) : ℚ) := by
            push_cast; linarith
          exact_mod_cast this
        exact_mod_cast g3.2 t
    simp only [F32.gtHalf, Bool.not_false, Bool.true_and, decide_eq_true_eq]
    rw [gtHalf_core]
    have hs : (2 : ℚ) ^ d = (2 : ℚ) ^ (d - 24 + 1) * (2 : ℚ) ^ 23 := by
      rw [show ((2 : ℚ) ^ 23) = (2 : ℚ) ^ (23 : Int) by norm_num,
        ← zpow_add₀ (by norm_num : (2 : ℚ) ≠ 0)]
      congr 1; ring
    have hxpos : (0 : ℚ) < (2 : ℚ) ^ d := by positivity
    have hcases : (2 : ℚ) ^ d ≤ 1 / 2 ∨ (2 : ℚ) ^ d = 1 ∨ 2 ≤ (2 : ℚ) ^ d := by
      rcases lt_trichotomy d 0 with hd | hd | hd
      · left
        have := zpow_le_zpow_right₀ (by norm_num : (1 : ℚ) ≤ 2) (show d ≤ -1 by omega)
        norm_num at this ⊢
        exact this
      · right; left; rw [hd]; norm_num
      · right; right
        have := zpow_le_zpow_right₀ (by norm_num : (1 : ℚ) ≤ 2) (show (1 : Int) ≤ d by omega)
        simpa using this
    generalize (2 : ℚ) ^ (d - 24 + 1) = y at *
    generalize (2 : ℚ) ^ d = x at *
    have hL : (1 < (m : ℚ) * y) ↔ (2 : ℚ) ^ 23 < (m : ℚ) * x := by
      have e : (m : ℚ) * x = (m : ℚ) * y * (2 : ℚ) ^ 23 := by rw [hs]; ring
      rw [e]
      constructor <;> intro h <;> nlinarith
    rw [hL]
    have hmx : (m : ℚ) * x ≤ (2 : ℚ) ^ 24 * x := mul_le_mul_of_nonneg_right g2' (le_of_lt hxpos)
    rcases hcases with hx | hx | hx
    · have hm1x : (m1 : ℚ) * x ≤ (m1 : ℚ) * (1 / 2) :=
        mul_le_mul_of_nonneg_left hx (by linarith)
      constructor
      · intro h; exfalso; linarith
      · intro h; exfalso; linarith
    · rw [hx]
      constructor
      · intro h
        have := g3'.1 (by linarith)
        linarith
      · intro h
        have := g3'.2 (by linarith)
        linarith
    · have hm1 : (m1 : ℚ) * 2 ≤ (m1 : ℚ) * x := mul_le_mul_of_nonneg_left hx (by linarith)
      have hm : (m : ℚ) * 2 ≤ (m : ℚ) * x := mul_le_mul_of_nonneg_left hx (by linarith)
      constructor
      · intro _; linarith
      · intro _; linarith
/-- The conversion of a screen size between 1 and `2^24` is exact. -/
theorem roundNat_exact_le (s : Nat) (h1 : 1 ≤ s) (h2 : s ≤ 2 ^ 24) :
    ((roundNat s).1 : ℚ) * (2 : ℚ) ^ (roundNat s).2 = s := by
  rcases Nat.lt_or_ge s (2 ^ 24) with hlt | hge
  · exact (roundNat_spec s h1).2.1 hlt
  · have e : s = 2 ^ 24 := by omega
    subst e
    have r : roundNat (2 ^ 24) = (2 ^ 23, 1) := by decide
    rw [r]
    norm_num

/-- `ShouldLevelUp` in terms of the number of walls, for screen sizes up to `2^24`. -/
theorem Hero.ShouldLevelUp_eq (n s : Nat) (h1 : 1 ≤ s) (h2 : s ≤ 2 ^ 24) :
    F32.gtHalf (F32.div (F32.ofNat n) (F32.ofInt (s : Int))) = true ↔ s < 2 * n := by
  have hs0 : ¬ ((s : Int) = 0) := by omega
  have hsneg : ¬ ((s : Int) < 0) := by omega
  have hofInt : F32.ofInt (s : Int) = F32.num false (roundNat s).1 (roundNat s).2 := by
    simp [F32.ofInt, hs0, hsneg]
  rw [hofInt]
  rcases Nat.eq_zero_or_pos n with hn | hn
  · subst hn
    simp [F32.ofNat, F32.div, F32.gtHalf]
  · have hn0 : ¬ n = 0 := by omega
    have hofNat : F32.ofNat n = F32.num false (roundNat n).1 (roundNat n).2 := by
      simp [F32.ofNat, hn0]
    rw [hofNat, F32.gtHalf_div _ _ _ _ (roundNat_spec n hn).1 (roundNat_spec s h1).1,
      roundNat_exact_le s h1 h2]
    have hs2 : (s : ℚ) ≤ (2 : ℚ) ^ 24 := by exact_mod_cast h2
    rcases Nat.lt_or_ge n (2 ^ 24) with hlt | hge
    · rw [(roundNat_spec n hn).2.1 hlt]
      constructor
      · intro h
        have h' : (2 ^ 24 + 1) * s < 2 ^ 25 * n := by exact_mod_cast h
        omega
      · intro h
        have h' : (2 ^ 24 + 1) * s < 2 ^ 25 * n := by omega
        exact_mod_cast h'
    · have hv := (roundNat_spec n hn).2.2 hge
      constructor
      · intro _; omega
      · intro _
        generalize ((roundNat n).1 : ℚ) * (2 : ℚ) ^ (roundNat n).2 = v at *
        nlinarith
/-- C9 as stated fails for large screens: with `screen_size = 2^25 = 33554432` and
`2^24 + 1 = 16777217` walls, more than half of the screen, the conversion to `float` rounds
the wall count to `2^23 * 2^1 = 2^24`, the quotient is `2^23 * 2^-24`, exactly `0.5`, and
`ShouldLevelUp` returns false. -/
theorem Hero.ShouldLevelUp_fails_large_screen :
    (1 : Int) ≤ (heroWithWalls 16777217 33554432).screen_size_ ∧
    (heroWithWalls 16777217 33554432).walls.length = 16777217 ∧
    (heroWithWalls 16777217 33554432).screen_size_ < 2 * ((16777217 : Nat) : Int) ∧
    F32.ofNat 16777217 = F32.num false (2 ^ 23) 1 ∧
    F32.div (F32.ofNat 16777217) (F32.ofInt 33554432) = F32.num false (2 ^ 23) (-24) ∧
    (heroWithWalls 16777217 33554432).ShouldLevelUp = false := by
  refine ⟨by decide, ?_, by decide, by rfl, by rfl, ?_⟩
  · exact List.length_replicate 16777217 (0 : Int)
  · have e : (heroWithWalls 16777217 33554432).shots_.length = 16777217 :=
      List.length_replicate 16777217 (0 : Int)
    unfold Hero.ShouldLevelUp
    rw [e]
    decide

/-- C9, amended (the screen size is at most `2^24 = 16777216`). Level-up boundary: for every
hero with `1 <= screen_size <= 2^24` whose wall collection holds `n` entries, `ShouldLevelUp`
returns true if and only if `2 * n > screen_size`; so with `screen_size = 10`, 5 walls do not
level up and 6 walls do. -/
theorem Hero.ShouldLevelUp_iff (h : Hero) (n : Nat) (hn : h.walls.length = n)
    (h1 : 1 ≤ h.screen_size_) (h2 : h.screen_size_ ≤ 2 ^ 24) :
    h.ShouldLevelUp = true ↔ h.screen_size_ < 2 * (n : Int) := by
  obtain ⟨s, hs⟩ := Int.eq_ofNat_of_zero_le (show 0 ≤ h.screen_size_ by omega)
  have hn' : h.shots_.length = n := hn
  unfold Hero.ShouldLevelUp
  rw [hn', hs, Hero.ShouldLevelUp_eq n s (by omega) (by omega)]
  omega

/-- C9, amended, at the inputs of the claim: on a screen of size 10 five walls do not level
up and six walls do. -/
theorem Hero.ShouldLevelUp_iff_witness :
    (heroWithWalls 5 10).ShouldLevelUp = false ∧ (heroWithWalls 6 10).ShouldLevelUp = true :=
  ⟨Bool.eq_false_iff.2 (fun hT =>
      absurd ((Hero.ShouldLevelUp_iff (heroWithWalls 5 10) 5 (by decide) (by decide)
        (by decide)).1 hT) (by decide)),
    (Hero.ShouldLevelUp_iff (heroWithWalls 6 10) 6 (by decide) (by decide) (by decide)).2
      (by decide)⟩


/-! ## Fire as a one-shot intent, the dead hero, `Init`, edge clamping, enemy order -/

/-- `Hero::Update` without a pending fire: the hero moves and nothing else happens. -/
theorem Hero.Update_not_firing (h : Hero) (enemies : EnemyList) (score : Int)
    (hf : h.is_firing_ = false) : h.Update enemies score = (false, h.move, score) := by
  simp [Hero.Update, hf]

/-- After `Hero::Update` no fire is pending. -/
theorem Hero.Update_is_firing (h : Hero) (enemies : EnemyList) (score : Int) :
    (h.Update enemies score).2.1.is_firing_ = false := by
  rcases Hero.Update_cases h enemies score with
    ⟨hf, e⟩ | ⟨_, _, e⟩ | ⟨_, _, _, _, _, _, e⟩ | ⟨_, _, _, _, _, _, _, _, e⟩
  · rw [e]; simpa using hf
  · rw [e]
  · rw [e]
  · rw [e]

/-- The position after `Hero::Update` is the position after the move. -/
theorem Hero.Update_pos (h : Hero) (enemies : EnemyList) (score : Int) :
    (h.Update enemies score).2.1.pos_ = h.move.pos_ := by
  rcases Hero.Update_cases h enemies score with
    ⟨_, e⟩ | ⟨_, _, e⟩ | ⟨_, _, _, _, _, _, e⟩ | ⟨_, _, _, _, _, _, _, _, e⟩ <;>
  rw [e]

/-- C11. Fire is a one-shot intent: `Fire(); Fire(); Update` gives the same return value,
hero and score as `Fire(); Update`; after any `Hero::Update` the firing flag is false; and a
following `Hero::Update` with no new `Fire` (directly, or after `SlideLeft`, `SlideRight` or
`Stop`) returns false, appends no wall and adds no score. -/
theorem Hero.Fire_one_shot (h : Hero) (enemies enemies1 : EnemyList) (score score1 : Int) :
    h.Fire.Fire.Update enemies score = h.Fire.Update enemies score ∧
    (h.Update enemies score).2.1.is_firing_ = false ∧
    (((h.Update enemies score).2.1.Update enemies1 score1).1 = false ∧
      ((h.Update enemies score).2.1.Update enemies1 score1).2.1.walls =
        (h.Update enemies score).2.1.walls ∧
      ((h.Update enemies score).2.1.Update enemies1 score1).2.2 = score1) ∧
    (((h.Update enemies score).2.1.SlideLeft.Update enemies1 score1).1 = false ∧
      ((h.Update enemies score).2.1.SlideLeft.Update enemies1 score1).2.1.walls =
        (h.Update enemies score).2.1.walls ∧
      ((h.Update enemies score).2.1.SlideLeft.Update enemies1 score1).2.2 = score1) ∧
    (((h.Update enemies score).2.1.SlideRight.Update enemies1 score1).1 = false ∧
      ((h.Update enemies score).2.1.SlideRight.Update enemies1 score1).2.1.walls =
        (h.Update enemies score).2.1.walls ∧
      ((h.Update enemies score).2.1.SlideRight.Update enemies1 score1).2.2 = score1) ∧
    (((h.Update enemies score).2.1.Stop.Update enemies1 score1).1 = false ∧
      ((h.Update enemies score).2.1.Stop.Update enemies1 score1).2.1.walls =
        (h.Update enemies score).2.1.walls ∧
      ((h.Update enemies score).2.1.Stop.Update enemies1 score1).2.2 = score1) := by
  have hf := Hero.Update_is_firing h enemies score
  refine ⟨rfl, hf, ?_, ?_, ?_, ?_⟩
  · rw [Hero.Update_not_firing _ enemies1 score1 hf]
    simp [Hero.walls]
  · rw [Hero.Update_not_firing _ enemies1 score1 (show (Hero.SlideLeft _).is_firing_ = false from hf)]
    simp [Hero.walls, Hero.SlideLeft]
  · rw [Hero.Update_not_firing _ enemies1 score1 (show (Hero.SlideRight _).is_firing_ = false from hf)]
    simp [Hero.walls, Hero.SlideRight]
  · rw [Hero.Update_not_firing _ enemies1 score1 (show (Hero.Stop _).is_firing_ = false from hf)]
    simp [Hero.walls, Hero.Stop]

/-- C12 as stated fails: `Hero::Update` never looks at `dead_`.  A dead hero at 5 facing right
with a fire pending moves to 6 and paints `0..6`, under `Hero::Update` and under the step
`Update`; a dead stopped hero outside the screen is moved to the edge. -/
theorem Hero.Update_dead_hero_moves_and_paints :
    (heroScenario GOING_RIGHT true).dead_ = true ∧
    (heroScenario GOING_RIGHT true).pos_ = 5 ∧ (heroScenario GOING_RIGHT true).walls = [] ∧
    ((heroScenario GOING_RIGHT true).Update [enemyAt15] 0).2.1.pos_ = 6 ∧
    ((heroScenario GOING_RIGHT true).Update [enemyAt15] 0).2.1.walls = [0, 1, 2, 3, 4, 5, 6] ∧
    (Xonitix.Update [enemyAt15] (heroScenario GOING_RIGHT true) 0).2.1.pos_ = 6 ∧
    (Xonitix.Update [enemyAt15] (heroScenario GOING_RIGHT true) 0).2.1.walls = [0, 1, 2, 3, 4, 5, 6] ∧
    heroDeadOutside.dead_ = true ∧ heroDeadOutside.pos_ = 25 ∧
    (heroDeadOutside.Update [] 0).2.1.pos_ = 20 := by
  have e1 : (heroScenario GOING_RIGHT true).Update [enemyAt15] 0 =
      (false, { heroScenario GOING_RIGHT true with
                  pos_ := 6, is_firing_ := false, shots_ := [0, 1, 2, 3, 4, 5, 6] }, 700) := by
    simp [Hero.Update, Hero.move, Hero.scanShots, Hero.scanEnemies, heroScenario, enemyAt15,
      Actor.x, MARGIN, Hero.paint, wrapInt, GOING_RIGHT]
  have e2 : (Xonitix.Update [enemyAt15] (heroScenario GOING_RIGHT true) 0).2.1 =
      { heroScenario GOING_RIGHT true with
          pos_ := 6, is_firing_ := false, shots_ := [0, 1, 2, 3, 4, 5, 6] } := by
    simp [Xonitix.Update, e1]
  rw [e1, e2]
  refine ⟨rfl, rfl, rfl, rfl, rfl, rfl, rfl, rfl, rfl, by decide⟩

/-- C12, amended. `Hero::Update` never reads `dead_`.  For every hero with `dead = true`,
every enemy list and score, after `Hero::Update` and after the simulation step `Update`:
`dead` is still true, whatever the direction, the position and the firing flag; the walls are
unchanged whenever no fire is pending; the position is unchanged whenever the hero is stopped
(direction 0) at a position in `[0, screen_size]`. -/
theorem Hero.Update_dead_frozen (h : Hero) (enemies : EnemyList) (score : Int)
    (hd : h.dead_ = true) :
    ((h.Update enemies score).2.1.dead_ = true ∧
      (Xonitix.Update enemies h score).2.1.dead_ = true) ∧
    (h.is_firing_ = false →
      (h.Update enemies score).2.1.walls = h.walls ∧
      (Xonitix.Update enemies h score).2.1.walls = h.walls) ∧
    (h.direction_ = 0 → 0 ≤ h.pos_ ∧ h.pos_ ≤ h.screen_size_ →
      (h.Update enemies score).2.1.pos_ = h.pos_ ∧
      (Xonitix.Update enemies h score).2.1.pos_ = h.pos_) := by
  have hstep : (Xonitix.Update enemies h score).2.1 = (h.Update enemies score).2.1 ∨
      (Xonitix.Update enemies h score).2.1 = (h.Update enemies score).2.1.Die := by
    unfold Xonitix.Update
    simp only
    split_ifs
    · exact Or.inr rfl
    · exact Or.inl rfl
  have hdead := Hero.Update_dead h enemies score
  refine ⟨⟨?_, ?_⟩, ?_, ?_⟩
  · rw [hdead, hd]
  · rcases hstep with e | e <;> rw [e]
    · rw [hdead, hd]
    · rfl
  · intro hf
    have e := Hero.Update_not_firing h enemies score hf
    have hw : (h.Update enemies score).2.1.walls = h.walls := by
      rw [e]
      simp [Hero.walls]
    refine ⟨hw, ?_⟩
    rcases hstep with e1 | e1 <;> rw [e1]
    · exact hw
    · exact hw
  · intro hdir hp
    have hm : h.move.pos_ = h.pos_ := by
      unfold Hero.move
      simp only [hdir, zero_mul, add_zero]
      rw [if_neg (by omega), if_neg (by omega)]
    have hpos : (h.Update enemies score).2.1.pos_ = h.pos_ := by
      rw [Hero.Update_pos, hm]
    refine ⟨hpos, ?_⟩
    rcases hstep with e1 | e1 <;> rw [e1]
    · exact hpos
    · exact hpos

/-- C12, amended, at a concrete input: a dead hero stopped at 5 with walls at 2 and 3 and no
fire pending stays dead, keeps its walls and keeps its position. -/
theorem Hero.Update_dead_frozen_witness :
    ((heroDeadStopped.Update [enemyAt6] 0).2.1.dead_ = true ∧
      (Xonitix.Update [enemyAt6] heroDeadStopped 0).2.1.dead_ = true) ∧
    ((heroDeadStopped.Update [enemyAt6] 0).2.1.walls = heroDeadStopped.walls ∧
      (Xonitix.Update [enemyAt6] heroDeadStopped 0).2.1.walls = heroDeadStopped.walls) ∧
    ((heroDeadStopped.Update [enemyAt6] 0).2.1.pos_ = heroDeadStopped.pos_ ∧
      (Xonitix.Update [enemyAt6] heroDeadStopped 0).2.1.pos_ = heroDeadStopped.pos_) :=
  ⟨(Hero.Update_dead_frozen heroDeadStopped [enemyAt6] 0 (by decide)).1,
    (Hero.Update_dead_frozen heroDeadStopped [enemyAt6] 0 (by decide)).2.1 (by decide),
    (Hero.Update_dead_frozen heroDeadStopped [enemyAt6] 0 (by decide)).2.2 (by decide)
      (by decide)⟩

/-- C16. `Init` yields a valid start state: for `screen_size >= 1` and non-negative results of
`rand()`, `Actor::Init` gives a position in `[0, screen_size]`, a direction that is left (-1)
or right (+1) and not stopped, and a speed in `{1, 2}`; `Hero::Init` gives a position in
`[0, screen_size]`, direction 0 and speed 1. -/
theorem Init_valid (a : Actor) (h : Hero) (screen_size r1 r2 r3 r : Int)
    (hs : 1 ≤ screen_size) (h1 : 0 ≤ r1) (_h2 : 0 ≤ r2) (h3 : 0 ≤ r3) (hr : 0 ≤ r) :
    ((0 ≤ (a.Init screen_size r1 r2 r3).pos_ ∧ (a.Init screen_size r1 r2 r3).pos_ ≤ screen_size) ∧
      ((a.Init screen_size r1 r2 r3).direction_ = GOING_LEFT ∨
        (a.Init screen_size r1 r2 r3).direction_ = GOING_RIGHT) ∧
      (a.Init screen_size r1 r2 r3).direction_ ≠ STOPPED ∧
      ((a.Init screen_size r1 r2 r3).speed_ = 1 ∨ (a.Init screen_size r1 r2 r3).speed_ = 2)) ∧
    ((0 ≤ (h.Init screen_size r).pos_ ∧ (h.Init screen_size r).pos_ ≤ screen_size) ∧
      (h.Init screen_size r).direction_ = 0 ∧ (h.Init screen_size r).speed_ = 1) := by
  have p1 := Int.tmod_nonneg screen_size h1
  have p2 := Int.tmod_lt_of_pos r1 (show 0 < screen_size by omega)
  have q1 := Int.tmod_nonneg screen_size hr
  have q2 := Int.tmod_lt_of_pos r (show 0 < screen_size by omega)
  have s1 := Int.tmod_nonneg 2 h3
  have s2 := Int.tmod_lt_of_pos r3 (show (0 : Int) < 2 by decide)
  refine ⟨⟨⟨p1, le_of_lt p2⟩, ?_, ?_, ?_⟩, ⟨⟨q1, le_of_lt q2⟩, rfl, rfl⟩⟩
  · simp only [Actor.Init]
    split_ifs
    · exact Or.inl rfl
    · exact Or.inr rfl
  · simp only [Actor.Init]
    split_ifs <;> decide
  · simp only [Actor.Init]
    omega

/-- C16 at a concrete input: `screen_size = 20` and the `rand()` results 47, 3, 8 and 61. -/
theorem Init_valid_witness :
    ((0 ≤ (actorLeft.Init 20 47 3 8).pos_ ∧ (actorLeft.Init 20 47 3 8).pos_ ≤ 20) ∧
      ((actorLeft.Init 20 47 3 8).direction_ = GOING_LEFT ∨
        (actorLeft.Init 20 47 3 8).direction_ = GOING_RIGHT) ∧
      (actorLeft.Init 20 47 3 8).direction_ ≠ STOPPED ∧
      ((actorLeft.Init 20 47 3 8).speed_ = 1 ∨ (actorLeft.Init 20 47 3 8).speed_ = 2)) ∧
    ((0 ≤ (heroOnWall.Init 20 61).pos_ ∧ (heroOnWall.Init 20 61).pos_ ≤ 20) ∧
      (heroOnWall.Init 20 61).direction_ = 0 ∧ (heroOnWall.Init 20 61).speed_ = 1) :=
  Init_valid actorLeft heroOnWall 20 47 3 8 61 (by decide) (by decide) (by decide) (by decide)
    (by decide)

/-- The loop over the enemies gives the same result for a permutation of the enemies. -/
theorem Hero.scanEnemies_perm (pos l r : Int) (enemies enemies1 : List Actor)
    (hp : enemies.Perm enemies1) :
    Hero.scanEnemies pos enemies l r = Hero.scanEnemies pos enemies1 l r := by
  by_cases hn : ∃ e ∈ enemies, NearHero pos e
  · have hn1 : ∃ e ∈ enemies1, NearHero pos e := by
      obtain ⟨e, he, hne⟩ := hn
      exact ⟨e, hp.mem_iff.1 he, hne⟩
    rw [Hero.scanEnemies_hit pos enemies l r hn, Hero.scanEnemies_hit pos enemies1 l r hn1]
  · have c : ∀ e ∈ enemies, ¬ NearHero pos e := fun e he hne => hn ⟨e, he, hne⟩
    have c1 : ∀ e ∈ enemies1, ¬ NearHero pos e := fun e he hne => hn ⟨e, hp.mem_iff.2 he, hne⟩
    rw [Hero.scanEnemies_clear pos enemies l r c, Hero.scanEnemies_clear pos enemies1 l r c1]
    have q1 : (∃ e ∈ enemies, l < e.x ∧ e.x < pos - 1) ↔
        (∃ e ∈ enemies1, l < e.x ∧ e.x < pos - 1) := by
      constructor
      · rintro ⟨e, he, h1⟩; exact ⟨e, hp.mem_iff.1 he, h1⟩
      · rintro ⟨e, he, h1⟩; exact ⟨e, hp.mem_iff.2 he, h1⟩
    have q2 : (∃ e ∈ enemies, pos + 1 < e.x ∧ e.x < r) ↔
        (∃ e ∈ enemies1, pos + 1 < e.x ∧ e.x < r) := by
      constructor
      · rintro ⟨e, he, h1⟩; exact ⟨e, hp.mem_iff.1 he, h1⟩
      · rintro ⟨e, he, h1⟩; exact ⟨e, hp.mem_iff.2 he, h1⟩
    simp only [q1, q2]

/-- C20. Fire resolution does not depend on the order of the enemies: for every hero, score
and enemy list, and every permutation of that list, `Hero::Update` returns the same value,
the same hero (position, direction, walls, firing flag) and the same score. -/
theorem Hero.Update_perm (h : Hero) (enemies enemies1 : EnemyList) (score : Int)
    (hp : enemies.Perm enemies1) :
    h.Update enemies score = h.Update enemies1 score := by
  unfold Hero.Update
  simp only
  split_ifs
  · split
    · rfl
    · rw [Hero.scanEnemies_perm _ _ _ enemies enemies1 hp]
  · rfl

/-- C20 at a concrete input: the enemies at 10 and 15 in both orders. -/
theorem Hero.Update_perm_witness :
    heroBetweenWalls.Update [enemyAt10, enemyAt15] 0 =
      heroBetweenWalls.Update [enemyAt15, enemyAt10] 0 :=
  Hero.Update_perm heroBetweenWalls [enemyAt10, enemyAt15] [enemyAt15, enemyAt10] 0
    (List.Perm.swap enemyAt15 enemyAt10 [])


/-! ## Repeated walls -/

/-- One call of `frame` when `Hero::Update` reports no collision. -/
theorem frame_eval (input : Hero → Hero) (s : EnemyList × Hero × Int) (h1 : Hero) (sc : Int)
    (e : (input s.2.1).Update s.1 s.2.2 = (false, h1, sc)) :
    frame input s = (s.1.map (fun enemy => enemy.Update h1.walls), h1, sc) := by
  simp [frame, Xonitix.Update, e]

/-- The first tick of the run `levelAfterSixFires`. -/
theorem level_tick1 :
    frame Hero.Fire levelStart =
    ([{ pos_ := 13, direction_ := 1, speed_ := 1, screen_size_ := 20 }],
     { pos_ := 0, direction_ := 0, speed_ := 1, screen_size_ := 20, is_firing_ := false,
       dead_ := false, shots_ := [0] },
     100) := by
  rw [frame_eval Hero.Fire _
    { pos_ := 0, direction_ := 0, speed_ := 1, screen_size_ := 20, is_firing_ := false,
      dead_ := false, shots_ := [0] } 100
    (by simp [levelStart, heroStart, Hero.fresh, Hero.Init, Hero.Fire, Hero.SlideRight, Actor.Init,
        Hero.Update, Hero.move, Hero.scanShots, Hero.scanEnemies, Actor.x, MARGIN, Hero.paint, wrapInt,
        GOING_LEFT, GOING_RIGHT, Int.tmod])]
  decide

/-- The second tick of the run `levelAfterSixFires`. -/
theorem level_tick2 :
    frame (fun h => h.SlideRight.Fire) 
    ([{ pos_ := 13, direction_ := 1, speed_ := 1, screen_size_ := 20 }],
     { pos_ := 0, direction_ := 0, speed_ := 1, screen_size_ := 20, is_firing_ := false,
       dead_ := false, shots_ := [0] },
     100) =
    ([{ pos_ := 14, direction_ := 1, speed_ := 1, screen_size_ := 20 }],
     { pos_ := 1, direction_ := 1, speed_ := 1, screen_size_ := 20, is_firing_ := false,
       dead_ := false, shots_ := [0, 0, 1] },
     300) := by
  rw [frame_eval (fun h => h.SlideRight.Fire) _
    { pos_ := 1, direction_ := 1, speed_ := 1, screen_size_ := 20, is_firing_ := false,
      dead_ := false, shots_ := [0, 0, 1] } 300
    (by simp [levelStart, heroStart, Hero.fresh, Hero.Init, Hero.Fire, Hero.SlideRight, Actor.Init,
        Hero.Update, Hero.move, Hero.scanShots, Hero.scanEnemies, Actor.x, MARGIN, Hero.paint, wrapInt,
        GOING_LEFT, GOING_RIGHT, Int.tmod])]
  decide

/-- The third tick of the run `levelAfterSixFires`. -/
theorem level_tick3 :
    frame Hero.Fire 
    ([{ pos_ := 14, direction_ := 1, speed_ := 1, screen_size_ := 20 }],
     { pos_ := 1, direction_ := 1, speed_ := 1, screen_size_ := 20, is_firing_ := false,
       dead_ := false, shots_ := [0, 0, 1] },
     300) =
    ([{ pos_ := 15, direction_ := 1, speed_ := 1, screen_size_ := 20 }],
     { pos_ := 2, direction_ := 1, speed_ := 1, screen_size_ := 20, is_firing_ := false,
       dead_ := false, shots_ := [0, 0, 1, 1, 2] },
     500) := by
  rw [frame_eval Hero.Fire _
    { pos_ := 2, direction_ := 1, speed_ := 1, screen_size_ := 20, is_firing_ := false,
      dead_ := false, shots_ := [0, 0, 1, 1, 2] } 500
    (by simp [levelStart, heroStart, Hero.fresh, Hero.Init, Hero.Fire, Hero.SlideRight, Actor.Init,
        Hero.Update, Hero.move, Hero.scanShots, Hero.scanEnemies, Actor.x, MARGIN, Hero.paint, wrapInt,
        GOING_LEFT, GOING_RIGHT, Int.tmod])]
  decide

/-- The fourth tick of the run `levelAfterSixFires`. -/
theorem level_tick4 :
    frame Hero.Fire 
    ([{ pos_ := 15, direction_ := 1, speed_ := 1, screen_size_ := 20 }],
     { pos_ := 2, direction_ := 1, speed_ := 1, screen_size_ := 20, is_firing_ := false,
       dead_ := false, shots_ := [0, 0, 1, 1, 2] },
     500) =
    ([{ pos_ := 16, direction_ := 1, speed_ := 1, screen_size_ := 20 }],
     { pos_ := 3, direction_ := 1, speed_ := 1, screen_size_ := 20, is_firing_ := false,
       dead_ := false, shots_ := [0, 0, 1, 1, 2, 2, 3] },
     700) := by
  rw [frame_eval Hero.Fire _
    { pos_ := 3, direction_ := 1, speed_ := 1, screen_size_ := 20, is_firing_ := false,
      dead_ := false, shots_ := [0, 0, 1, 1, 2, 2, 3] } 700
    (by simp [levelStart, heroStart, Hero.fresh, Hero.Init, Hero.Fire, Hero.SlideRight, Actor.Init,
        Hero.Update, Hero.move, Hero.scanShots, Hero.scanEnemies, Actor.x, MARGIN, Hero.paint, wrapInt,
        GOING_LEFT, GOING_RIGHT, Int.tmod])]
  decide

/-- The fifth tick of the run `levelAfterSixFires`. -/
theorem level_tick5 :
    frame Hero.Fire 
    ([{ pos_ := 16, direction_ := 1, speed_ := 1, screen_size_ := 20 }],
     { pos_ := 3, direction_ := 1, speed_ := 1, screen_size_ := 20, is_firing_ := false,
       dead_ := false, shots_ := [0, 0, 1, 1, 2, 2, 3] },
     700) =
    ([{ pos_ := 17, direction_ := 1, speed_ := 1, screen_size_ := 20 }],
     { pos_ := 4, direction_ := 1, speed_ := 1, screen_size_ := 20, is_firing_ := false,
       dead_ := false, shots_ := [0, 0, 1, 1, 2, 2, 3, 3, 4] },
     900) := by
  rw [frame_eval Hero.Fire _
    { pos_ := 4, direction_ := 1, speed_ := 1, screen_size_ := 20, is_firing_ := false,
      dead_ := false, shots_ := [0, 0, 1, 1, 2, 2, 3, 3, 4] } 900
    (by simp [levelStart, heroStart, Hero.fresh, Hero.Init, Hero.Fire, Hero.SlideRight, Actor.Init,
        Hero.Update, Hero.move, Hero.scanShots, Hero.scanEnemies, Actor.x, MARGIN, Hero.paint, wrapInt,
        GOING_LEFT, GOING_RIGHT, Int.tmod])]
  decide

/-- The sixth tick of the run `levelAfterSixFires`. -/
theorem level_tick6 :
    frame Hero.Fire 
    ([{ pos_ := 17, direction_ := 1, speed_ := 1, screen_size_ := 20 }],
     { pos_ := 4, direction_ := 1, speed_ := 1, screen_size_ := 20, is_firing_ := false,
       dead_ := false, shots_ := [0, 0, 1, 1, 2, 2, 3, 3, 4] },
     900) =
    ([{ pos_ := 18, direction_ := 1, speed_ := 1, screen_size_ := 20 }],
     { pos_ := 5, direction_ := 1, speed_ := 1, screen_size_ := 20, is_firing_ := false,
       dead_ := false, shots_ := [0, 0, 1, 1, 2, 2, 3, 3, 4, 4, 5] },
     1100) := by
  rw [frame_eval Hero.Fire _
    { pos_ := 5, direction_ := 1, speed_ := 1, screen_size_ := 20, is_firing_ := false,
      dead_ := false, shots_ := [0, 0, 1, 1, 2, 2, 3, 3, 4, 4, 5] } 1100
    (by simp [levelStart, heroStart, Hero.fresh, Hero.Init, Hero.Fire, Hero.SlideRight, Actor.Init,
        Hero.Update, Hero.move, Hero.scanShots, Hero.scanEnemies, Actor.x, MARGIN, Hero.paint, wrapInt,
        GOING_LEFT, GOING_RIGHT, Int.tmod])]
  decide

/-- The run `levelAfterSixFires`: the enemy walks from 12 to 18 and each fire paints the
hero's cell and, again, the wall to its left. -/
theorem levelAfterSixFires_eq :
    levelAfterSixFires =
    ([{ pos_ := 18, direction_ := 1, speed_ := 1, screen_size_ := 20 }],
     { pos_ := 5, direction_ := 1, speed_ := 1, screen_size_ := 20, is_firing_ := false,
       dead_ := false, shots_ := [0, 0, 1, 1, 2, 2, 3, 3, 4, 4, 5] },
     1100) := by
  unfold levelAfterSixFires
  rw [level_tick1, level_tick2, level_tick3, level_tick4, level_tick5, level_tick6]


/-- C13, the code at the failing input.  From the start of a level (hero at 0, screen size 20)
the first fire paints the cell 0 and scores 100; after `SlideRight` the second fire, from the
cell 1, paints the cells 0 and 1 and scores 200: the wall 0 is in `walls` twice and has been
scored twice. -/
theorem Hero.Update_repaints_limit_wall :
    heroStart.Fire.Update [{ pos_ := 12, direction_ := 1, speed_ := 1, screen_size_ := 20 }] 0 =
      (false,
       { pos_ := 0, direction_ := 0, speed_ := 1, screen_size_ := 20, is_firing_ := false,
         dead_ := false, shots_ := [0] },
       100) ∧
    (Hero.Fire (Hero.SlideRight
        { pos_ := 0, direction_ := 0, speed_ := 1, screen_size_ := 20, is_firing_ := false,
          dead_ := false, shots_ := [0] })).Update
        [{ pos_ := 13, direction_ := 1, speed_ := 1, screen_size_ := 20 }] 100 =
      (false,
       { pos_ := 1, direction_ := 1, speed_ := 1, screen_size_ := 20, is_firing_ := false,
         dead_ := false, shots_ := [0, 0, 1] },
       300) ∧
    ¬ ([0, 0, 1] : List Int).Nodup := by
  refine ⟨?_, ?_, by decide⟩
  · simp [heroStart, Hero.fresh, Hero.Init, Hero.Fire, Hero.Update, Hero.move, Hero.scanShots,
      Hero.scanEnemies, Actor.x, MARGIN, Hero.paint, wrapInt, Int.tmod]
  · simp [Hero.Fire, Hero.SlideRight, Hero.Update, Hero.move, Hero.scanShots,
      Hero.scanEnemies, Actor.x, MARGIN, Hero.paint, wrapInt, GOING_RIGHT]

/-- C14, the code at the failing input.  After the run `levelAfterSixFires` the hero holds 11
wall entries for 6 distinct cells of a screen of size 20, which is 30% of it, and
`ShouldLevelUp` returns true. -/
theorem Hero.ShouldLevelUp_with_six_cells :
    levelAfterSixFires.2.1.walls = [0, 0, 1, 1, 2, 2, 3, 3, 4, 4, 5] ∧
    levelAfterSixFires.2.1.walls.dedup = [0, 1, 2, 3, 4, 5] ∧
    levelAfterSixFires.2.1.screen_size_ = 20 ∧
    ¬ (20 < 2 * (levelAfterSixFires.2.1.walls.dedup.length : Int)) ∧
    levelAfterSixFires.2.1.ShouldLevelUp = true := by
  rw [levelAfterSixFires_eq]
  refine ⟨rfl, by decide, rfl, by decide, by decide⟩




/-! ## Enemies never stand on a wall -/

/-- An actor strictly inside the screen and not on a wall, whose move does not leave the range
of `int`, is after `Actor::Update` again strictly inside the screen and not on a wall. -/
theorem Actor.Update_off_walls (a : Actor) (walls : List Int)
    (hd : a.direction_ = GOING_LEFT ∨ a.direction_ = GOING_RIGHT)
    (hsp : 1 ≤ a.speed_)
    (hp : 1 ≤ a.pos_ ∧ a.pos_ ≤ a.screen_size_ - 1)
    (hpi : InIntRange a.pos_)
    (hfit : InIntRange (a.pos_ + a.direction_ * a.speed_))
    (hw : a.pos_ ∉ walls) :
    (1 ≤ (a.Update walls).pos_ ∧ (a.Update walls).pos_ ≤ a.screen_size_ - 1) ∧
    (a.Update walls).pos_ ∉ walls := by
  unfold InIntRange at hpi
  rcases hd with hd | hd
  · obtain ⟨a1, a2, a3⟩ := Actor.ClosestWall_left a hd walls
    have hfit1 : InIntRange (a.pos_ - a.speed_) := by
      rw [hd] at hfit; simpa [GOING_LEFT, sub_eq_add_neg] using hfit
    have hw1 : wrapInt (a.ClosestWall_ walls + 1) = a.ClosestWall_ walls + 1 := by
      apply wrapInt_of_inRange
      unfold InIntRange
      rcases a1 with a1 | ⟨_, a1⟩ <;> omega
    rw [Actor.Update_left a hd walls, wrapInt_of_inRange _ hfit1, hw1]
    generalize a.ClosestWall_ walls = c at *
    have hc : c < a.pos_ := by
      rcases a1 with a1 | ⟨_, a1⟩ <;> omega
    split_ifs with hb
    · refine ⟨⟨?_, ?_⟩, ?_⟩
      · simp only; omega
      · simp only; omega
      · simp only
        intro hmem
        by_cases heq : c + 1 = a.pos_
        · rw [heq] at hmem; exact hw hmem
        · have := a3 (c + 1) hmem (by omega)
          omega
    · refine ⟨⟨?_, ?_⟩, ?_⟩
      · simp only; omega
      · simp only; omega
      · simp only
        intro hmem
        have := a3 (a.pos_ - a.speed_) hmem (by omega)
        omega
  · obtain ⟨a1, a2, a3⟩ := Actor.ClosestWall_right a hd walls
    have hfit1 : InIntRange (a.pos_ + a.speed_) := by
      rw [hd] at hfit; simpa [GOING_RIGHT] using hfit
    rw [Actor.Update_right a hd walls, wrapInt_of_inRange _ hfit1]
    unfold InIntRange at hfit1
    generalize a.ClosestWall_ walls = c at *
    have hc : a.pos_ < c := by
      rcases a1 with a1 | ⟨_, a1⟩ <;> omega
    split_ifs with hb
    · have hw1 : wrapInt (c - 1) = c - 1 := by
        apply wrapInt_of_inRange
        unfold InIntRange
        omega
      rw [hw1]
      refine ⟨⟨?_, ?_⟩, ?_⟩
      · simp only; omega
      · simp only; omega
      · simp only
        intro hmem
        by_cases heq : c - 1 = a.pos_
        · rw [heq] at hmem; exact hw hmem
        · have := a3 (c - 1) hmem (by omega)
          omega
    · refine ⟨⟨?_, ?_⟩, ?_⟩
      · simp only; omega
      · simp only; omega
      · simp only
        intro hmem
        have := a3 (a.pos_ + a.speed_) hmem (by omega)
        omega

/-- The loop over the enemies returns a pair only when no enemy is within distance 1. -/
theorem Hero.scanEnemies_some_clear (pos : Int) (enemies : List Actor) (l r l1 r1 : Int)
    (e : Hero.scanEnemies pos enemies l r = some (l1, r1)) :
    ∀ x ∈ enemies, ¬ NearHero pos x := by
  intro x hx hn
  have := Hero.scanEnemies_hit pos enemies l r ⟨x, hx, hn⟩
  rw [this] at e
  exact Option.noConfusion e

/-- A fire never paints a cell on which an enemy stands: for enemies strictly inside the
screen and not on a wall, no enemy is on a wall of the hero after `Hero::Update`. -/
theorem Hero.Update_keeps_enemies_off_walls (h : Hero) (enemies : EnemyList) (score : Int)
    (he : ∀ e ∈ enemies, (1 ≤ e.pos_ ∧ e.pos_ ≤ h.screen_size_ - 1) ∧ e.pos_ ∉ h.walls) :
    ∀ e ∈ enemies, e.pos_ ∉ (h.Update enemies score).2.1.walls := by
  intro x hx
  obtain ⟨⟨x1, x2⟩, x3⟩ := he x hx
  rcases Hero.Update_cases h enemies score with
    ⟨_, e⟩ | ⟨_, _, e⟩ | ⟨_, _, _, _, _, _, e⟩ | ⟨_, _, l, r, l1, r1, e1, e2, e⟩
  · rw [e]; simpa [Hero.walls] using x3
  · rw [e]; simpa [Hero.walls] using x3
  · rw [e]; simpa [Hero.walls] using x3
  · rw [e]
    obtain ⟨a1, a2, a3, a4, a5, a6⟩ := Hero.scanShots_some _ _ _ _ _ _ e1
    have hclear := Hero.scanEnemies_some_clear _ _ _ _ _ _ e2
    have hnx : ¬ NearHero h.move.pos_ x := hclear x hx
    have e3 := Hero.scanEnemies_clear h.move.pos_ enemies l r hclear
    rw [e3] at e2
    simp only [Option.some.injEq, Prod.mk.injEq] at e2
    obtain ⟨el, er⟩ := e2
    have x3' : x.pos_ ∉ h.shots_ := x3
    have hxx : x.x = x.pos_ := rfl
    unfold NearHero at hnx
    rw [hxx] at hnx
    have hL : l1 = h.move.pos_ ∨ (l1 = l ∧ (x.pos_ < h.move.pos_ - 1 → ¬ l < x.pos_)) := by
      by_cases c : ∃ e ∈ enemies, l < e.x ∧ e.x < h.move.pos_ - 1
      · left; rw [if_pos c] at el; exact el.symm
      · right; rw [if_neg c] at el
        exact ⟨el.symm, fun hlt hl => c ⟨x, hx, hl, hlt⟩⟩
    have hR : r1 = h.move.pos_ ∨ (r1 = r ∧ (h.move.pos_ + 1 < x.pos_ → ¬ x.pos_ < r)) := by
      by_cases c : ∃ e ∈ enemies, h.move.pos_ + 1 < e.x ∧ e.x < r
      · left; rw [if_pos c] at er; exact er.symm
      · right; rw [if_neg c] at er
        exact ⟨er.symm, fun hgt hr => c ⟨x, hx, hgt, hr⟩⟩
    clear el er e3
    show x.pos_ ∉ h.shots_ ++ intSpan l1 r1
    rw [List.mem_append, mem_intSpan]
    rintro (hm | ⟨hm1, hm2⟩)
    · exact x3' hm
    · rcases Int.lt_or_le x.pos_ (h.move.pos_ - 1) with hlt | hge
      · -- the enemy is left of the hero
        rcases hL with hL | ⟨hL, hL2⟩
        · omega
        · have hxl := hL2 hlt
          rcases a1 with a1 | ⟨a1, _⟩
          · omega
          · have : x.pos_ ≠ l := fun heq => x3' (heq ▸ a1)
            omega
      · -- the enemy is right of the hero
        have hgt : h.move.pos_ + 1 < x.pos_ := by omega
        rcases hR with hR | ⟨hR, hR2⟩
        · omega
        · have hxr := hR2 hgt
          rcases a4 with a4 | ⟨a4, _⟩
          · omega
          · have : x.pos_ ≠ r := fun heq => x3' (heq ▸ a4)
            omega
/-- The step `Update` when `Hero::Update` reports a collision. -/
theorem Update_of_collision (enemies : EnemyList) (hero : Hero) (score : Int)
    (hc : (hero.Update enemies score).1 = true) :
    Update enemies hero score =
      (enemies, (hero.Update enemies score).2.1.Die, (hero.Update enemies score).2.2) := by
  unfold Update; simp only; rw [if_pos hc]

/-- The step `Update` when `Hero::Update` reports no collision. -/
theorem Update_of_no_collision (enemies : EnemyList) (hero : Hero) (score : Int)
    (hc : (hero.Update enemies score).1 = false) :
    Update enemies hero score =
      (enemies.map (fun enemy => enemy.Update (hero.Update enemies score).2.1.walls),
        (hero.Update enemies score).2.1, (hero.Update enemies score).2.2) := by
  unfold Update; simp only; rw [if_neg (by simp [hc])]

/-- C19 as stated fails when an enemy's move leaves the range of `int`: on a screen of size 20
with no walls and a hero that does not fire, an enemy at 9 moving right at speed 2147483647
meets every hypothesis of the claim and is at -2147483640 after the step, outside
`[1, screen_size - 1]`. -/
theorem Update_enemy_leaves_screen_on_overflow :
    2 ≤ heroAtEdge.screen_size_ ∧
    (0 ≤ heroAtEdge.pos_ ∧ heroAtEdge.pos_ ≤ heroAtEdge.screen_size_) ∧
    (∀ e ∈ [actorFast], e.screen_size_ = heroAtEdge.screen_size_ ∧
      (e.direction_ = GOING_LEFT ∨ e.direction_ = GOING_RIGHT) ∧ 1 ≤ e.speed_ ∧
      (1 ≤ e.pos_ ∧ e.pos_ ≤ heroAtEdge.screen_size_ - 1) ∧ e.pos_ ∉ heroAtEdge.walls) ∧
    (Update [actorFast] heroAtEdge 0).1 =
      [{ pos_ := -2147483640, direction_ := 1, speed_ := 2147483647, screen_size_ := 20 }] ∧
    ¬ (∀ e ∈ (Update [actorFast] heroAtEdge 0).1, 1 ≤ e.pos_) := by
  decide

/-- C19, amended (no enemy's move leaves the range of `int`). Enemies never stand on a wall:
if `screen_size >= 2`, the hero's position is in `[0, screen_size]` and every enemy (on the
same screen) has direction `d` in `{-1, +1}`, speed `s >= 1` and a position `p` in
`[1, screen_size - 1]` that is not a wall cell, with `p` and `p + d*s` in the range of `int`,
then after one simulation step `Update`, whether or not the hero fired or collided, every
enemy is at a position in `[1, screen_size - 1]` that is not a cell of the hero's walls
after the step. -/
theorem Update_enemies_off_walls (enemies : EnemyList) (hero : Hero) (score : Int)
    (_hs : 2 ≤ hero.screen_size_)
    (_hp : 0 ≤ hero.pos_ ∧ hero.pos_ ≤ hero.screen_size_)
    (he : ∀ e ∈ enemies, e.screen_size_ = hero.screen_size_ ∧
      (e.direction_ = GOING_LEFT ∨ e.direction_ = GOING_RIGHT) ∧ 1 ≤ e.speed_ ∧
      (1 ≤ e.pos_ ∧ e.pos_ ≤ hero.screen_size_ - 1) ∧ e.pos_ ∉ hero.walls ∧
      InIntRange e.pos_ ∧ InIntRange (e.pos_ + e.direction_ * e.speed_)) :
    ∀ e ∈ (Update enemies hero score).1,
      (1 ≤ e.pos_ ∧ e.pos_ ≤ hero.screen_size_ - 1) ∧
      e.pos_ ∉ (Update enemies hero score).2.1.walls := by
  have hoff := Hero.Update_keeps_enemies_off_walls hero enemies score
    (fun e hx => ⟨(he e hx).2.2.2.1, (he e hx).2.2.2.2.1⟩)
  cases hc : (hero.Update enemies score).1 with
  | true =>
    rw [Update_of_collision enemies hero score hc]
    intro e hx
    exact ⟨(he e hx).2.2.2.1, hoff e hx⟩
  | false =>
    rw [Update_of_no_collision enemies hero score hc]
    intro e hx
    obtain ⟨x, hxm, rfl⟩ := List.mem_map.1 hx
    obtain ⟨h1, h2, h3, h4, -, h6, h7⟩ := he x hxm
    have := Actor.Update_off_walls x (hero.Update enemies score).2.1.walls h2 h3
      (by rw [h1]; exact h4) h6 h7 (hoff x hxm)
    rw [h1] at this
    exact this

/-- C19, amended, at a concrete input: a hero at 5 between the walls 3 and 9 fires and paints
`3..9`; the enemy at 2, heading for the wall 3 at speed 2, is inside the screen and off the
walls after the step. -/
theorem Update_enemies_off_walls_witness :
    (1 ≤ (enemyAt2.Update (heroCaged.Update [enemyAt2, enemyAt15] 0).2.1.walls).pos_ ∧
      (enemyAt2.Update (heroCaged.Update [enemyAt2, enemyAt15] 0).2.1.walls).pos_ ≤
        heroCaged.screen_size_ - 1) ∧
    (enemyAt2.Update (heroCaged.Update [enemyAt2, enemyAt15] 0).2.1.walls).pos_ ∉
      (Update [enemyAt2, enemyAt15] heroCaged 0).2.1.walls :=
  Update_enemies_off_walls [enemyAt2, enemyAt15] heroCaged 0 (by decide) (by decide)
    (by decide) _
    (by
      have hc : (heroCaged.Update [enemyAt2, enemyAt15] 0).1 = false := by
        simp [Hero.Update, Hero.move, Hero.scanShots, Hero.scanEnemies, heroCaged, enemyAt2,
          enemyAt15, Actor.x, MARGIN]
      rw [Update_of_no_collision _ _ _ hc]
      exact List.mem_map.2 ⟨enemyAt2, List.mem_cons_self _ _, rfl⟩)

/-! ## Lemmas on `Render` -/

/-- `compare` at a position inside the string. -/
theorem compareAt_inside (ln : List Char) (pos : Int) (c : Char)
    (h : 0 ≤ pos ∧ pos < (ln.length : Int)) :
    compareAt ln pos c = some (decide (ln[pos.toNat]? = some c)) := by
  unfold compareAt
  rw [if_neg (by omega)]

/-- `replace` at a position inside the string overwrites one character. -/
theorem replaceAt_inside (ln : List Char) (pos : Int) (c : Char)
    (h : 0 ≤ pos ∧ pos < (ln.length : Int)) :
    replaceAt ln pos c = some (ln.set pos.toNat c) := by
  unfold replaceAt
  rw [if_neg (by omega), if_neg (by omega)]

/-- The loop over the enemies, for enemies in the first `n` cells of the string: it returns a
string of the same length with the same text from cell `n` on; a cell without an enemy is
unchanged, a cell with an enemy holds `.` or `:`. -/
theorem Render.drawEnemies_spec (n : Nat) (enemies : EnemyList) :
    ∀ ln : List Char, n ≤ ln.length → (∀ e ∈ enemies, 0 ≤ e.x ∧ e.x < (n : Int)) →
      ∃ ln1, Render.drawEnemies enemies ln = some ln1 ∧ ln1.length = ln.length ∧
        ln1.drop n = ln.drop n ∧
        (∀ i : Nat, (∀ e ∈ enemies, e.x ≠ (i : Int)) → ln1[i]? = ln[i]?) ∧
        (∀ i : Nat, (∃ e ∈ enemies, e.x = (i : Int)) → ln1[i]? = some '.' ∨ ln1[i]? = some ':') := by
  induction enemies with
  | nil =>
    intro ln _ _
    exact ⟨ln, rfl, rfl, rfl, fun _ _ => rfl, fun i h => by simp at h⟩
  | cons e rest ih =>
    intro ln hn he
    obtain ⟨e0, e1⟩ := he e (List.mem_cons_self _ _)
    have hin : 0 ≤ e.x ∧ e.x < (ln.length : Int) := ⟨e0, by omega⟩
    have hlt : e.x.toNat < ln.length := by omega
    have hltn : e.x.toNat < n := by omega
    have hrest : ∀ e' ∈ rest, 0 ≤ e'.x ∧ e'.x < (n : Int) :=
      fun e' h' => he e' (List.mem_cons_of_mem _ h')
    obtain ⟨sprite, hs, hsp⟩ : ∃ s : Char,
        (if decide (ln[e.x.toNat]? = some ' ') = true then '.' else ':') = s ∧
        (s = '.' ∨ s = ':') := by
      refine ⟨_, rfl, ?_⟩
      split_ifs
      · exact Or.inl rfl
      · exact Or.inr rfl
    have hlen : (ln.set e.x.toNat sprite).length = ln.length := List.length_set _ _ _
    have hin1 : 0 ≤ e.x ∧ e.x < ((ln.set e.x.toNat sprite).length : Int) := by
      rw [hlen]; exact hin
    obtain ⟨ln1, r1, r2, r3, r4, r5⟩ := ih (ln.set e.x.toNat sprite) (by rw [hlen]; exact hn) hrest
    refine ⟨ln1, ?_, by rw [r2, hlen], ?_, ?_, ?_⟩
    · simp only [Render.drawEnemies, Render.enemySprite, compareAt_inside ln e.x ' ' hin, hs,
        replaceAt_inside ln e.x sprite hin]
      exact r1
    · rw [r3, List.drop_set_of_lt sprite ln hltn]
    · intro i hi
      have hne : e.x ≠ (i : Int) := hi e (List.mem_cons_self _ _)
      rw [r4 i (fun e' h' => hi e' (List.mem_cons_of_mem _ h'))]
      exact List.getElem?_set_ne (by omega)
    · intro i hi
      by_cases hr : ∃ e' ∈ rest, e'.x = (i : Int)
      · exact r5 i hr
      · have hall : ∀ e' ∈ rest, e'.x ≠ (i : Int) := fun e' h' heq => hr ⟨e', h', heq⟩
        have hie : e.x = (i : Int) := by
          obtain ⟨e', h', heq⟩ := hi
          rcases List.mem_cons.1 h' with h1 | h1
          · rw [← h1]; exact heq
          · exact absurd heq (hall e' h1)
        have hi2 : e.x.toNat = i := by omega
        rw [r4 i hall, ← hi2, List.getElem?_set_self hlt]
        rcases hsp with h1 | h1
        · left; rw [h1]
        · right; rw [h1]
/-- The loop over the walls, for walls in the first `n` cells of the string: it returns a
string of the same length with the same text from cell `n` on; a wall cell holds `|`, any other
cell is unchanged. -/
theorem Render.drawWalls_spec (n : Nat) (walls : List Int) :
    ∀ ln : List Char, n ≤ ln.length → (∀ w ∈ walls, 0 ≤ w ∧ w < (n : Int)) →
      ∃ ln1, Render.drawWalls walls ln = some ln1 ∧ ln1.length = ln.length ∧
        ln1.drop n = ln.drop n ∧
        (∀ i : Nat, (i : Int) ∉ walls → ln1[i]? = ln[i]?) ∧
        (∀ i : Nat, (i : Int) ∈ walls → ln1[i]? = some '|') := by
  induction walls with
  | nil =>
    intro ln _ _
    exact ⟨ln, rfl, rfl, rfl, fun _ _ => rfl, fun i h => by simp at h⟩
  | cons w rest ih =>
    intro ln hn hw
    obtain ⟨w0, w1⟩ := hw w (List.mem_cons_self _ _)
    have hin : 0 ≤ w ∧ w < (ln.length : Int) := ⟨w0, by omega⟩
    have hlt : w.toNat < ln.length := by omega
    have hltn : w.toNat < n := by omega
    have hrest : ∀ w' ∈ rest, 0 ≤ w' ∧ w' < (n : Int) :=
      fun w' h' => hw w' (List.mem_cons_of_mem _ h')
    have hlen : (ln.set w.toNat '|').length = ln.length := List.length_set _ _ _
    obtain ⟨ln1, r1, r2, r3, r4, r5⟩ := ih (ln.set w.toNat '|') (by rw [hlen]; exact hn) hrest
    refine ⟨ln1, ?_, by rw [r2, hlen], ?_, ?_, ?_⟩
    · simp only [Render.drawWalls, replaceAt_inside ln w '|' hin]
      exact r1
    · rw [r3, List.drop_set_of_lt '|' ln hltn]
    · intro i hi
      have hne : w ≠ (i : Int) := fun heq => hi (heq ▸ List.mem_cons_self _ _)
      rw [r4 i (fun h' => hi (List.mem_cons_of_mem _ h'))]
      exact List.getElem?_set_ne (by omega)
    · intro i hi
      by_cases hr : (i : Int) ∈ rest
      · exact r5 i hr
      · have hie : (i : Int) = w := by
          rcases List.mem_cons.1 hi with h1 | h1
          · exact h1
          · exact absurd h1 hr
        have hi2 : w.toNat = i := by omega
        rw [r4 i hr, ← hi2, List.getElem?_set_self hlt]

/-- C15. Render precedence: for a hero and enemies whose positions and walls lie in
`[0, screen_size]`, `Render` composes a line in which each cell `i` with
`0 <= i <= screen_size` is the player glyph if `i` is the hero's position (`L` when that cell
is a wall, `_` otherwise), else `|` if `i` is a wall, else `.` or `:` if some enemy is at `i`,
else a blank; the first `screen_size + 1` cells are followed by the status text with the
level index and the score; and what `Render` writes is that line, four blanks and a carriage
return. -/
theorem Render_precedence (enemies : EnemyList) (hero : Hero) (score screen_size : Int)
    (hh : 0 ≤ hero.x ∧ hero.x ≤ screen_size)
    (he : ∀ e ∈ enemies, 0 ≤ e.x ∧ e.x ≤ screen_size)
    (hw : WallsWithin hero.walls screen_size) :
    ∃ ln : List Char, Render.line enemies hero score screen_size = some ln ∧
      (∀ i : Nat, (i : Int) ≤ screen_size →
        ∃ c, ln[i]? = some c ∧ IsCellGlyph enemies hero (i : Int) c) ∧
      ln.drop (screen_size + 1).toNat =
        ("| Level " ++ toString enemies.length ++ " Score " ++ toString score).toList ∧
      Render enemies hero score screen_size = some (ln ++ [' ', ' ', ' ', ' ', Char.ofNat 13]) := by
  obtain ⟨n, hn⟩ : ∃ n : Nat, (screen_size + 1).toNat = n := ⟨_, rfl⟩
  have hn1 : (n : Int) = screen_size + 1 := by omega
  have hlen0 : (List.replicate n ' ' ++ Render.status enemies score).length =
      n + (Render.status enemies score).length := by simp
  have hget0 : ∀ i : Nat, i < n →
      (List.replicate n ' ' ++ Render.status enemies score)[i]? = some ' ' := by
    intro i hi
    rw [List.getElem?_append_left (by simpa using hi), List.getElem?_replicate, if_pos hi]
  have hdrop0 : (List.replicate n ' ' ++ Render.status enemies score).drop n =
      Render.status enemies score := by
    rw [List.drop_append_of_le_length (by simp), List.drop_of_length_le (by simp), List.nil_append]
  obtain ⟨ln1, a1, a2, a3, a4, a5⟩ := Render.drawEnemies_spec n enemies
    (List.replicate n ' ' ++ Render.status enemies score) (by omega)
    (fun e h' => ⟨(he e h').1, by have := (he e h').2; omega⟩)
  obtain ⟨ln2, b1, b2, b3, b4, b5⟩ := Render.drawWalls_spec n hero.walls ln1 (by omega)
    (fun w h' => ⟨(hw w h').1, by have := (hw w h').2; omega⟩)
  have hxin : 0 ≤ hero.x ∧ hero.x < (ln2.length : Int) := ⟨hh.1, by omega⟩
  have hxlt : hero.x.toNat < ln2.length := by omega
  have hxn : hero.x.toNat < n := by omega
  -- the glyph below an enemy or a blank is never the wall glyph
  have hln1 : ∀ i : Nat, i < n → ln1[i]? ≠ some '|' := by
    intro i hi
    by_cases hen : ∃ e ∈ enemies, e.x = (i : Int)
    · rcases a5 i hen with h1 | h1 <;> rw [h1] <;> decide
    · rw [a4 i (fun e h' heq => hen ⟨e, h', heq⟩), hget0 i hi]; decide
  have hwall : (ln2[hero.x.toNat]? = some '|') ↔ hero.x ∈ hero.walls := by
    have hcast : ((hero.x.toNat : Nat) : Int) = hero.x := by omega
    constructor
    · intro h
      by_contra hnot
      rw [b4 hero.x.toNat (by rw [hcast]; exact hnot)] at h
      exact hln1 _ hxn h
    · intro h
      exact b5 hero.x.toNat (by rw [hcast]; exact h)
  have hline : Render.line enemies hero score screen_size =
      some (ln2.set hero.x.toNat (if hero.x ∈ hero.walls then 'L' else '_')) := by
    unfold Render.line Render.start
    rw [if_neg (by omega), hn]
    simp only [a1, b1, compareAt_inside ln2 hero.x '|' hxin]
    rw [replaceAt_inside ln2 hero.x _ hxin]
    congr 2
    by_cases hm : hero.x ∈ hero.walls
    · simp [hm, hwall.2 hm]
    · have : ¬ ln2[hero.x.toNat]? = some '|' := fun h => hm (hwall.1 h)
      simp [hm, this]
  refine ⟨_, hline, ?_, ?_, ?_⟩
  · intro i hi
    have hin : i < n := by omega
    unfold IsCellGlyph
    by_cases hix : (i : Int) = hero.x
    · have hi2 : hero.x.toNat = i := by omega
      refine ⟨if hero.x ∈ hero.walls then 'L' else '_', ?_, ?_⟩
      · rw [← hi2, List.getElem?_set_self hxlt]
      · rw [if_pos hix, hix]
    · have hne : hero.x.toNat ≠ i := by omega
      rw [List.getElem?_set_ne hne]
      by_cases hiw : (i : Int) ∈ hero.walls
      · exact ⟨'|', b5 i hiw, by rw [if_neg hix, if_pos hiw]⟩
      · rw [b4 i hiw]
        by_cases hen : ∃ e ∈ enemies, e.x = (i : Int)
        · rcases a5 i hen with h1 | h1
          · exact ⟨'.', h1, by rw [if_neg hix, if_neg hiw, if_pos hen]; exact Or.inl rfl⟩
          · exact ⟨':', h1, by rw [if_neg hix, if_neg hiw, if_pos hen]; exact Or.inr rfl⟩
        · refine ⟨' ', ?_, by rw [if_neg hix, if_neg hiw, if_neg hen]⟩
          rw [a4 i (fun e h' heq => hen ⟨e, h', heq⟩), hget0 i hin]
  · rw [hn, List.drop_set_of_lt _ ln2 hxn, b3, a3, hdrop0]
    rfl
  · unfold Render
    rw [hline]

/-- C15 at a concrete input: a screen of size 8, a hero at 3 on a wall, walls at 3 and 5, one
enemy at 5 and two at 7. -/
theorem Render_precedence_witness :
    ∃ ln : List Char, Render.line [enemyAt5, enemyAt7, enemyAt7] heroRender 300 8 = some ln ∧
      (∀ i : Nat, (i : Int) ≤ 8 →
        ∃ c, ln[i]? = some c ∧ IsCellGlyph [enemyAt5, enemyAt7, enemyAt7] heroRender (i : Int) c) ∧
      ln.drop ((8 : Int) + 1).toNat =
        ("| Level " ++ toString [enemyAt5, enemyAt7, enemyAt7].length ++ " Score " ++
          toString (300 : Int)).toList ∧
      Render [enemyAt5, enemyAt7, enemyAt7] heroRender 300 8 =
        some (ln ++ [' ', ' ', ' ', ' ', Char.ofNat 13]) :=
  Render_precedence [enemyAt5, enemyAt7, enemyAt7] heroRender 300 8 (by decide) (by decide)
    (by decide)

/-- The first `screen_size + 1` cells of the string that `Render` starts from are blank. -/
theorem Render.start_blank (enemies : EnemyList) (score screen_size : Int) (i : Nat)
    (hi : (i : Int) ≤ screen_size) :
    (Render.start enemies score screen_size)[i]? = some ' ' := by
  unfold Render.start
  rw [List.getElem?_append_left (by simp; omega), List.getElem?_replicate, if_pos (by omega)]

/-- The loop over the enemies run on `pre ++ rest` is the loop on `rest` run on the result of
the loop on `pre`. -/
theorem Render.drawEnemies_append (pre rest : EnemyList) :
    ∀ ln ln1 : List Char, Render.drawEnemies pre ln = some ln1 →
      Render.drawEnemies (pre ++ rest) ln = Render.drawEnemies rest ln1 := by
  induction pre with
  | nil =>
    intro ln ln1 h
    simp only [Render.drawEnemies, Option.some.injEq] at h
    rw [List.nil_append, h]
  | cons e pre ih =>
    intro ln ln1 h
    simp only [List.cons_append, Render.drawEnemies] at h ⊢
    cases hs : Render.enemySprite ln e with
    | none => rw [hs] at h; exact Option.noConfusion h
    | some sprite =>
      rw [hs] at h
      simp only at h ⊢
      cases hr : replaceAt ln e.x sprite with
      | none => rw [hr] at h; exact Option.noConfusion h
      | some ln2 =>
        rw [hr] at h
        simp only at h ⊢
        exact ih ln2 ln1 h

/-- C18 as stated fails: the enemy glyph does not look at the walls.  On a screen of size 8
with walls at 3 and 5, a single enemy on the wall cell 5 is written as `.`, and of two enemies
on the cell 7, which is not a wall, the second is written as `:`. -/
theorem Render.enemySprite_ignores_walls :
    (5 : Int) ∈ heroRender.walls ∧
    Render.enemySprite (Render.start [enemyAt5] 0 8) enemyAt5 = some '.' ∧
    (7 : Int) ∉ heroRender.walls ∧
    Render.drawEnemies [enemyAt7] (Render.start [enemyAt7, enemyAt7] 0 8) =
      some ((Render.start [enemyAt7, enemyAt7] 0 8).set 7 '.') ∧
    Render.enemySprite ((Render.start [enemyAt7, enemyAt7] 0 8).set 7 '.') enemyAt7 =
      some ':' := by
  refine ⟨by decide, by decide, by decide, by decide, by decide⟩

/-- C18, amended. Enemy glyph choice in `Render`: for enemies at positions in
`[0, screen_size]`, the glyph written for an enemy `e` that follows the enemies `pre` in the
list is `:` exactly when an enemy of `pre` is at the same position, and `.` otherwise: with
`ln1` the string after the enemies `pre` have been drawn, the loop writes that glyph at the
position of `e` and goes on with the enemies `post`. -/
theorem Render.enemySprite_overlap (pre post : EnemyList) (e : Actor) (score screen_size : Int)
    (hpre : ∀ e1 ∈ pre, 0 ≤ e1.x ∧ e1.x ≤ screen_size)
    (he : 0 ≤ e.x ∧ e.x ≤ screen_size) :
    ∃ ln1 : List Char,
      Render.drawEnemies pre (Render.start (pre ++ e :: post) score screen_size) = some ln1 ∧
      Render.enemySprite ln1 e = some (if ∃ e1 ∈ pre, e1.x = e.x then ':' else '.') ∧
      Render.drawEnemies (pre ++ e :: post)
          (Render.start (pre ++ e :: post) score screen_size) =
        Render.drawEnemies post
          (ln1.set e.x.toNat (if ∃ e1 ∈ pre, e1.x = e.x then ':' else '.')) := by
  obtain ⟨n, hn⟩ : ∃ n : Nat, (screen_size + 1).toNat = n := ⟨_, rfl⟩
  have hlen0 : n ≤ (Render.start (pre ++ e :: post) score screen_size).length := by
    unfold Render.start; simp; omega
  obtain ⟨ln1, a1, a2, -, a4, a5⟩ := Render.drawEnemies_spec n pre
    (Render.start (pre ++ e :: post) score screen_size) hlen0
    (fun e1 h1 => ⟨(hpre e1 h1).1, by have := (hpre e1 h1).2; omega⟩)
  have hin : 0 ≤ e.x ∧ e.x < (ln1.length : Int) := ⟨he.1, by omega⟩
  have hcast : ((e.x.toNat : Nat) : Int) = e.x := by omega
  have hsprite : Render.enemySprite ln1 e =
      some (if ∃ e1 ∈ pre, e1.x = e.x then ':' else '.') := by
    unfold Render.enemySprite
    rw [compareAt_inside ln1 e.x ' ' hin]
    by_cases hex : ∃ e1 ∈ pre, e1.x = e.x
    · have hne : ¬ ln1[e.x.toNat]? = some ' ' := by
        rcases a5 e.x.toNat (by rw [hcast]; exact hex) with h1 | h1 <;> rw [h1] <;> decide
      simp [hex, hne]
    · have hblank : ln1[e.x.toNat]? = some ' ' := by
        rw [a4 e.x.toNat (fun e1 h1 heq => hex ⟨e1, h1, by rw [heq, hcast]⟩)]
        exact Render.start_blank _ _ _ _ (by omega)
      simp [hex, hblank]
  refine ⟨ln1, a1, hsprite, ?_⟩
  rw [Render.drawEnemies_append pre (e :: post) _ ln1 a1]
  simp only [Render.drawEnemies, hsprite, replaceAt_inside ln1 e.x _ hin]

/-- C18, amended, at a concrete input: the enemies at 5, 7 and 7 on a screen of size 8; the
second enemy at 7 is written as `:`. -/
theorem Render.enemySprite_overlap_witness :
    ∃ ln1 : List Char,
      Render.drawEnemies [enemyAt5, enemyAt7]
        (Render.start ([enemyAt5, enemyAt7] ++ enemyAt7 :: []) 0 8) = some ln1 ∧
      Render.enemySprite ln1 enemyAt7 =
        some (if ∃ e1 ∈ [enemyAt5, enemyAt7], e1.x = enemyAt7.x then ':' else '.') ∧
      Render.drawEnemies ([enemyAt5, enemyAt7] ++ enemyAt7 :: [])
          (Render.start ([enemyAt5, enemyAt7] ++ enemyAt7 :: []) 0 8) =
        Render.drawEnemies []
          (ln1.set enemyAt7.x.toNat
            (if ∃ e1 ∈ [enemyAt5, enemyAt7], e1.x = enemyAt7.x then ':' else '.')) :=
  Render.enemySprite_overlap [enemyAt5, enemyAt7] [] enemyAt7 0 8 (by decide) (by decide)

end Xonitix
